import Mathlib

/-! PSI monitor (`main.go`): embedding and verified properties

A shallow embedding of the pressure-stall-information monitor: the report-line
parser `parsePressureEntry`, the snapshot loop `PressureStallInformation.String`,
the trigger encoder `Trigger.String`, trigger registration `NewTicker` and its
poll loop, together with the pieces of the Go standard library they call
(`strings.Split`, `strconv.Atoi`, `strconv.ParseFloat`, the `%d` verb of `fmt`).

Conventions.
* A Go `string` is a sequence of bytes; a byte is a natural number (below 256 in
  every string a Go program can hold).
* `int` and `int64` are 64 bit wide (Linux on a 64 bit platform); values are
  integers and wrap-around is written out with `% 2^64` where Go has it.
* A run-time panic is an explicit outcome (`Go.panic`), distinct from a
  returned `error`.
* `float64` values are IEEE 754 binary64 bit patterns.
-/

namespace Psi

/-! ## Go values -/

/-- A Go `string`: its bytes, in order. -/
abbrev GoString := List Nat

/-- The bytes (UTF-8) of a string literal. -/
def str (s : String) : GoString := s.toUTF8.data.toList.map UInt8.toNat

/-- Run-time panics the embedded code can raise. -/
inductive RuntimePanic where
  /-- The panic `index out of range [index] with length length`. -/
  | indexOutOfRange (index length : Nat)
deriving DecidableEq, Repr

/-- Outcome of running a Go function: it returns a value or it panics. -/
inductive Go (α : Type) where
  | ret (a : α)
  | panic (p : RuntimePanic)
deriving DecidableEq, Repr

/-- Values of the Go `error` interface that occur in the program. -/
inductive GoError where
  /-- Go `fmt.Errorf(msg)`. -/
  | errorf (msg : GoString)
  /-- An error of the operating system (`*fs.PathError` / `syscall.Errno`). -/
  | errno (code : Nat)
  /-- End of file, `io.EOF`. -/
  | eof
deriving DecidableEq, Repr

/-- The two error kinds of `strconv.NumError`. -/
inductive NumError where
  | ErrSyntax
  | ErrRange
deriving DecidableEq, Repr

/-- Indexing `xs[i]` of a Go slice: a panic when `i` is out of range. -/
def index {α : Type} (xs : List α) (i : Nat) : Go α :=
  match xs.get? i with
  | some x => Go.ret x
  | none => Go.panic (RuntimePanic.indexOutOfRange i xs.length)

/-! ## `strings.Split` -/

/-- Model of `strings.Split(s, sep)` for a separator `sep` of one byte, the only
kind the program uses (`" "`, `"="`, `"\n"`): the pieces of `s` between
consecutive occurrences of `sep`; an `s` holding `n` separators gives `n + 1`
pieces, the empty string gives one empty piece. -/
def Split (s : GoString) (sep : Nat) : List GoString :=
  match s with
  | [] => [[]]
  | c :: cs =>
    if c = sep then [] :: Split cs sep
    else
      match Split cs sep with
      | [] => [[c]]
      | p :: ps => (c :: p) :: ps

/-! ## `strconv.Atoi` -/

/-- Width of `int`. -/
def intSize : Nat := 64

/-- Go `lower(c)`: `c | ('x' - 'X')`. -/
def lower (c : Nat) : Nat := c ||| 32

/-- The digit loop of the fast path of `strconv.Atoi`: `ch -= '0'` on a byte,
failure when `ch > 9`, else `n = n*10 + int(ch)`. -/
def atoiFastLoop : GoString → Int → Option Int
  | [], n => some n
  | c :: cs, n =>
    let ch := (c + 256 - 48) % 256
    if ch > 9 then none else atoiFastLoop cs (n * 10 + (ch : Int))

/-- The digit loop of `strconv.ParseUint(s, 10, 64)`: `cutoff = maxUint64/10 + 1`,
`maxVal = 1<<64 - 1`. The loop returns as soon as a byte is no digit (syntax
error, value 0) or the value overflows (range error, value `maxVal`). -/
def parseUintLoop : GoString → Nat → Nat × Option NumError
  | [], n => (n, none)
  | c :: cs, n =>
    -- the case `c == '_' && base0` never applies: the base is 10, not 0
    if (48 ≤ c ∧ c ≤ 57) ∨ (97 ≤ lower c ∧ lower c ≤ 122) then
      let d := if 48 ≤ c ∧ c ≤ 57 then c - 48 else lower c - 97 + 10
      if d ≥ 10 then (0, some NumError.ErrSyntax)
      else if n ≥ (2 ^ 64 - 1) / 10 + 1 then (2 ^ 64 - 1, some NumError.ErrRange)
      else
        let m := n * 10 % 2 ^ 64
        let n1 := (m + d) % 2 ^ 64
        if n1 < m ∨ n1 > 2 ^ 64 - 1 then (2 ^ 64 - 1, some NumError.ErrRange)
        else parseUintLoop cs n1
    else (0, some NumError.ErrSyntax)

/-- Model of `strconv.ParseUint(s, 10, 0)`. -/
def ParseUint (s : GoString) : Nat × Option NumError :=
  if s = [] then (0, some NumError.ErrSyntax) else parseUintLoop s 0

/-- Model of `strconv.ParseInt(s, 10, 0)`: sign, `ParseUint`, then the range
check against `cutoff = 1 << 63`. -/
def ParseInt (s : GoString) : Int × Option NumError :=
  match s with
  | [] => (0, some NumError.ErrSyntax)
  | c :: cs =>
    let neg := c = 45
    let s1 := if c = 43 ∨ c = 45 then cs else c :: cs
    match ParseUint s1 with
    | (_, some NumError.ErrSyntax) => (0, some NumError.ErrSyntax)
    | (un, _) =>
      let cutoff := 2 ^ (intSize - 1)
      if ¬ neg ∧ un ≥ cutoff then ((cutoff : Int) - 1, some NumError.ErrRange)
      else if neg ∧ un > cutoff then (-(cutoff : Int), some NumError.ErrRange)
      else (if neg then -(un : Int) else (un : Int), none)

/-- Model of `strconv.Atoi(s)` with a 64 bit `int`: the fast path for strings of
1 to 18 bytes, `ParseInt(s, 10, 0)` otherwise. The value is returned together
with the error, as in Go (0 on a syntax error, the extreme `int` of the sign
on a range error). -/
def Atoi (s : GoString) : Int × Option NumError :=
  if 0 < s.length ∧ s.length < 19 then
    match s with
    | [] => (0, some NumError.ErrSyntax)
    | c :: cs =>
      let digits := if c = 45 ∨ c = 43 then cs else c :: cs
      if digits.length < 1 then (0, some NumError.ErrSyntax)
      else
        match atoiFastLoop digits 0 with
        | none => (0, some NumError.ErrSyntax)
        | some n => (if c = 45 then -n else n, none)
  else ParseInt s

/-! ## `float64` and `strconv.ParseFloat` -/

/-- A `float64`: its IEEE 754 binary64 bit pattern (sign bit, 11 exponent bits,
52 fraction bits), as `math.Float64bits` gives it. -/
structure Float64 where
  bits : Nat
deriving DecidableEq, Repr

/-- The `float64` with the given sign, biased exponent and fraction field. -/
def Float64.pack (neg : Bool) (biasedExp frac : Nat) : Float64 :=
  ⟨(if neg then 2 ^ 63 else 0) + biasedExp * 2 ^ 52 + frac⟩

/-- Positive zero, the zero value of `float64`. -/
def Float64.zero : Float64 := ⟨0⟩

/-- The infinity of the given sign, `math.Inf`. -/
def Float64.inf (neg : Bool) : Float64 := Float64.pack neg 2047 0

/-- The bit pattern of `math.NaN()`. -/
def Float64.nan : Float64 := ⟨0x7FF8000000000001⟩

/-- The fraction `n / (d * 2^e)` as a pair numerator, denominator. -/
def scalePow2 (n d : Nat) (e : Int) : Nat × Nat :=
  if 0 ≤ e then (n, d * 2 ^ e.toNat) else (n * 2 ^ (-e).toNat, d)

/-- The position of the highest set bit of `n` (0 for `n < 2`), by halving at
most `fuel` times. -/
def log2Fuel : Nat → Nat → Nat
  | 0, _ => 0
  | fuel + 1, n => if 2 ≤ n then log2Fuel fuel (n / 2) + 1 else 0

/-- The position of the highest set bit of `n`: `2^(log2 n) ≤ n < 2^(log2 n + 1)`
for positive `n`. -/
def log2 (n : Nat) : Nat := log2Fuel n n

/-- The integer `E` with `2^E ≤ n/d < 2^(E+1)`, for positive `n` and `d`. -/
def floorLog2 (n d : Nat) : Int :=
  let l : Int := (log2 n : Int) - (log2 d : Int)
  if (scalePow2 n d l).2 ≤ (scalePow2 n d l).1 then l else l - 1

/-- The integer nearest to `a / b`, a tie going to the even one. -/
def roundHalfEven (a b : Nat) : Nat :=
  let q := a / b
  let r := a % b
  if 2 * r < b then q
  else if b < 2 * r then q + 1
  else if q % 2 = 0 then q else q + 1

/-- The `float64` nearest to `± n/d` (IEEE 754 round to nearest, ties to even),
and whether the value overflowed to an infinity. A value too small for a
subnormal rounds to a zero of the given sign, without overflow. -/
def Float64.nearest (neg : Bool) (n d : Nat) : Float64 × Bool :=
  if n = 0 then (Float64.pack neg 0 0, false)
  else
    let e0 : Int := max (floorLog2 n d - 52) (-1074)
    let m0 := roundHalfEven (scalePow2 n d e0).1 (scalePow2 n d e0).2
    let m := if m0 = 2 ^ 53 then 2 ^ 52 else m0
    let e := if m0 = 2 ^ 53 then e0 + 1 else e0
    if e > 971 then (Float64.inf neg, true)
    else if m < 2 ^ 52 then (Float64.pack neg 0 m, false)
    else (Float64.pack neg (e + 1075).toNat (m - 2 ^ 52), false)

/-- Go `commonPrefixLenIgnoreCase(s, pfx)`, `pfx` in lower case. -/
def commonLenIgnoreCase : GoString → GoString → Nat
  | c :: cs, p :: ps =>
    let c1 := if 65 ≤ c ∧ c ≤ 90 then c + 32 else c
    if c1 ≠ p then 0 else commonLenIgnoreCase cs ps + 1
  | _, _ => 0

/-- Go `special(s)`: the infinities ("inf", "infinity", with an optional sign)
and "nan", whatever the case of the letters; the value and the number of bytes
consumed. -/
def special (s : GoString) : Option (Float64 × Nat) :=
  match s with
  | [] => none
  | c :: cs =>
    if c = 43 ∨ c = 45 ∨ c = 105 ∨ c = 73 then
      let signed := c = 43 ∨ c = 45
      let body := if signed then cs else c :: cs
      let nsign := if signed then 1 else 0
      let n0 := commonLenIgnoreCase body (str "infinity")
      let n := if 3 < n0 ∧ n0 < 8 then 3 else n0
      if n = 3 ∨ n = 8 then some (Float64.inf (c = 45), nsign + n) else none
    else if c = 110 ∨ c = 78 then
      if commonLenIgnoreCase (c :: cs) (str "nan") = 3 then some (Float64.nan, 3) else none
    else none

/-- Go `underscoreOK(s)`, the scan after sign and base marker: `saw` is 0 for
the start, 1 for a digit or base marker, 2 for an underscore, 3 for anything
else. -/
def underscoreScan (hex : Bool) : GoString → Nat → Bool
  | [], saw => saw ≠ 2
  | c :: cs, saw =>
    if (48 ≤ c ∧ c ≤ 57) ∨ (hex ∧ 97 ≤ lower c ∧ lower c ≤ 102) then underscoreScan hex cs 1
    else if c = 95 then
      if saw ≠ 1 then false else underscoreScan hex cs 2
    else if saw = 2 then false
    else underscoreScan hex cs 3

/-- Go `underscoreOK(s)`: underscores stand only between digits, or between a
base marker and a digit. -/
def underscoreOK (s : GoString) : Bool :=
  let s1 := match s with
    | c :: cs => if c = 45 ∨ c = 43 then cs else c :: cs
    | [] => []
  match s1 with
  | c0 :: c1 :: rest =>
    if c0 = 48 ∧ (lower c1 = 98 ∨ lower c1 = 111 ∨ lower c1 = 120) then
      underscoreScan (lower c1 = 120) rest 1
    else underscoreScan false s1 0
  | _ => underscoreScan false s1 0

/-- State of the mantissa loop of `readFloat`. The mantissa holds every
significant digit read (Go keeps the first 19 and, when it dropped a non-zero
one, converts from the full text instead; the value converted is the same). -/
structure Mantissa where
  sawdot : Bool
  sawdigits : Bool
  underscores : Bool
  nd : Nat
  dp : Int
  mantissa : Nat
deriving DecidableEq, Repr

/-- The mantissa loop of `readFloat`: digits, one dot, underscores; it stops
at the first other byte and returns the bytes not consumed. -/
def readMantissa (hex : Bool) : GoString → Mantissa → Mantissa × GoString
  | [], st => (st, [])
  | c :: cs, st =>
    if c = 95 then readMantissa hex cs { st with underscores := true }
    else if c = 46 then
      if st.sawdot then (st, c :: cs)
      else readMantissa hex cs { st with sawdot := true, dp := st.nd }
    else if 48 ≤ c ∧ c ≤ 57 then
      if c = 48 ∧ st.nd = 0 then
        readMantissa hex cs { st with sawdigits := true, dp := st.dp - 1 }
      else
        let m := st.mantissa * (if hex then 16 else 10) + (c - 48)
        readMantissa hex cs { st with sawdigits := true, nd := st.nd + 1, mantissa := m }
    else if hex ∧ 97 ≤ lower c ∧ lower c ≤ 102 then
      let m := st.mantissa * 16 + (lower c - 97 + 10)
      readMantissa hex cs { st with sawdigits := true, nd := st.nd + 1, mantissa := m }
    else (st, c :: cs)

/-- The digit loop of the exponent of `readFloat`: the exponent stops growing
once it reached 10000. -/
def readExponent : GoString → Nat → Bool → Nat × Bool × GoString
  | [], e, u => (e, u, [])
  | c :: cs, e, u =>
    if 48 ≤ c ∧ c ≤ 57 then readExponent cs (if e < 10000 then e * 10 + (c - 48) else e) u
    else if c = 95 then readExponent cs e true
    else (e, u, c :: cs)

/-- What `readFloat` returns on success: the number is
`± mantissa * base^exp`, base 2 for a hexadecimal literal and 10 otherwise. -/
structure FloatLit where
  mantissa : Nat
  exp : Int
  neg : Bool
  hex : Bool
deriving DecidableEq, Repr

/-- The test of `readFloat` for the base marker: `i+2 < len(s) && s[i] == '0' &&
lower(s[i+1]) == 'x'`, on the text after the sign. -/
def hasHexMarker (s : GoString) : Bool :=
  match s with
  | c0 :: c1 :: _ :: _ => c0 = 48 ∧ lower c1 = 120
  | _ => false

/-- The optional exponent of `readFloat`, read from the bytes `rest` that
follow the mantissa: the decimal point moved by the exponent, the underscore
flag and the bytes not consumed; `none` where Go returns `ok = false` (an
exponent without digits, a hexadecimal mantissa without exponent). -/
def readExponentPart (hex : Bool) (dp : Int) (underscores : Bool) (rest : GoString) :
    Option (Int × Bool × GoString) :=
  match rest with
  | x :: xs =>
    if lower x = (if hex then 112 else 101) then
      match xs with
      | [] => none
      | y :: ys =>
        let esign : Int := if y = 45 then -1 else 1
        let ds := if y = 43 ∨ y = 45 then ys else y :: ys
        match ds with
        | [] => none
        | z :: _ =>
          if z < 48 ∨ z > 57 then none
          else
            match readExponent ds 0 underscores with
            | (e, u, rest1) => some (dp + e * esign, u, rest1)
    else if hex then none
    else some (dp, underscores, rest)
  | [] => if hex then none else some (dp, underscores, [])

/-- Go `readFloat(s)`: the literal read and the bytes of `s` after it, or
`none` where Go returns `ok = false`. -/
def readFloat (s : GoString) : Option (FloatLit × GoString) :=
  match s with
  | [] => none
  | c :: cs =>
    let neg := c = 45
    let s1 := if c = 43 ∨ c = 45 then cs else c :: cs
    let hex := hasHexMarker s1
    let s2 := if hex then s1.drop 2 else s1
    match readMantissa hex s2 ⟨false, false, false, 0, 0, 0⟩ with
    | (st, rest) =>
      if ¬ st.sawdigits then none
      else
        let dp0 : Int := if st.sawdot then st.dp else st.nd
        let dp1 : Int := if hex then dp0 * 4 else dp0
        let ndMant : Int := if hex then st.nd * 4 else st.nd
        match readExponentPart hex dp1 st.underscores rest with
        | none => none
        | some (dp, underscores, rest1) =>
          let exp : Int := if st.mantissa ≠ 0 then dp - ndMant else 0
          if underscores ∧ ¬ underscoreOK (s.take (s.length - rest1.length)) then none
          else some (⟨st.mantissa, exp, neg, hex⟩, rest1)

/-- The conversion of a literal: the nearest `float64` to `± mantissa * base^exp`
and whether it overflowed. -/
def FloatLit.toFloat64 (l : FloatLit) : Float64 × Bool :=
  let b := if l.hex then 2 else 10
  if 0 ≤ l.exp then Float64.nearest l.neg (l.mantissa * b ^ l.exp.toNat) 1
  else Float64.nearest l.neg l.mantissa (b ^ (-l.exp).toNat)

/-- Model of `strconv.ParseFloat(s, 64)`: a special value or a literal that
spans all of `s` converts to the nearest `float64`; an overflow gives the
infinity of the sign with `ErrRange`; anything else gives 0 with `ErrSyntax`. -/
def ParseFloat (s : GoString) : Float64 × Option NumError :=
  match special s with
  | some (f, n) => if n ≠ s.length then (Float64.zero, some NumError.ErrSyntax) else (f, none)
  | none =>
    match readFloat s with
    | none => (Float64.zero, some NumError.ErrSyntax)
    | some (l, rest) =>
      if rest ≠ [] then (Float64.zero, some NumError.ErrSyntax)
      else if (FloatLit.toFloat64 l).2 then ((FloatLit.toFloat64 l).1, some NumError.ErrRange)
      else ((FloatLit.toFloat64 l).1, none)

/-! ## `fmt`: the verbs `%s` and `%d` -/

/-- The digit loop of `fmt.fmtInteger` in base 10: the digits of `u`, the last
one first into the buffer, so most significant digit first in the output. -/
def fmtDigits : Nat → Nat → GoString → GoString
  | 0, u, acc => (48 + u % 10) :: acc
  | fuel + 1, u, acc =>
    if 10 ≤ u then fmtDigits fuel (u / 10) ((48 + (u - u / 10 * 10)) :: acc)
    else (48 + u) :: acc

/-- The verb `%d` on an `int64` (`fmt.fmtInteger`): `u = uint64(v)`, negated
modulo `2^64` when `v` is negative, its decimal digits, and a leading `-` for a
negative `v`. -/
def fmtInteger (v : Int) : GoString :=
  let u := (v % 2 ^ 64).toNat
  let negative := v < 0
  let u1 := if negative then (2 ^ 64 - u) % 2 ^ 64 else u
  let digits := fmtDigits 20 u1 []
  if negative then 45 :: digits else digits

/-! ## The program -/

/-- Go `type Scope string`. -/
abbrev Scope := GoString

/-- Go `ScopeFull Scope = "full"`. -/
def ScopeFull : Scope := str "full"

/-- Go `ScopeSome Scope = "some"`. -/
def ScopeSome : Scope := str "some"

/-- Go `time.Duration`: a number of nanoseconds, an `int64`. -/
abbrev Duration := Int

/-- Go `Duration.Microseconds`: `int64(d) / 1e3`, the quotient truncated toward
zero. -/
def Duration.Microseconds (d : Duration) : Int := Int.tdiv d 1000

/-- Go `time.Millisecond`. -/
def Millisecond : Duration := 1000000

/-- Go `time.Second`. -/
def Second : Duration := 1000000000

/-- Go `type Trigger struct`. -/
structure Trigger where
  Threshold : Duration
  Window : Duration
  Scope : Scope
deriving DecidableEq, Repr

/-- Go `type Resource string`. -/
abbrev Resource := GoString

/-- Go `ResourceCPU Resource = "cpu"`. -/
def ResourceCPU : Resource := str "cpu"

/-- Go `ResourceIO Resource = "io"`. -/
def ResourceIO : Resource := str "io"

/-- Go `ResourceMemory Resource = "memory"`. -/
def ResourceMemory : Resource := str "memory"

/-- Go `type Result struct`. -/
structure Result where
  Scope : Scope
  Total : Int
  Avg10 : Float64
  Avg60 : Float64
  Avg300 : Float64
deriving DecidableEq, Repr

/-- Go `Result{}`, the zero value: the empty scope and zeros. -/
def Result.zero : Result := ⟨[], 0, Float64.zero, Float64.zero, Float64.zero⟩

/-- Sequencing of Go statements: a panic ends the function. -/
def Go.bind {α β : Type} (x : Go α) (f : α → Go β) : Go β :=
  match x with
  | Go.ret a => f a
  | Go.panic p => Go.panic p

/-- Go `parsePressureEntry(entry)`: the returned `(Result, error)`, or the
panic of an index out of range. The errors of `ParseFloat` and `Atoi` are
dropped and their values kept, as the blank identifier does. -/
def parsePressureEntry (entry : GoString) : Go (Result × Option GoError) :=
  let parts := Split entry 32
  if parts.length < 5 then
    Go.ret (Result.zero, some (GoError.errorf (str "invalid entry")))
  else
    Go.bind (index parts 0) fun part0 =>
    let scope := if part0 = str "some" then ScopeSome else ScopeFull
    Go.bind (index parts 1) fun part1 =>
    Go.bind (index (Split part1 61) 1) fun avg10 =>
    Go.bind (index parts 2) fun part2 =>
    Go.bind (index (Split part2 61) 1) fun avg60 =>
    Go.bind (index parts 3) fun part3 =>
    Go.bind (index (Split part3 61) 1) fun avg300 =>
    Go.bind (index parts 4) fun part4 =>
    Go.bind (index (Split part4 61) 1) fun total =>
    Go.ret ({ Scope := scope, Total := (Atoi total).1, Avg10 := (ParseFloat avg10).1,
              Avg60 := (ParseFloat avg60).1, Avg300 := (ParseFloat avg300).1 }, none)

/-- An open file as the program sees it: the text a read at offset 0 finds, and
the error of the read when the read fails. -/
structure File where
  content : GoString
  failure : Option GoError
deriving DecidableEq, Repr

/-- Go `f.Read(buf)` at offset 0 with a buffer of `size` bytes: the bytes read
`buf[:n]` and the error; at most `size` bytes, and `io.EOF` when there is
nothing to read. -/
def File.Read (f : File) (size : Nat) : GoString × Option GoError :=
  match f.failure with
  | some e => ([], some e)
  | none => if f.content = [] then ([], some GoError.eof) else (f.content.take size, none)

/-- Go `type PressureStallInformation struct` (the triggers field is never
used). -/
structure PressureStallInformation where
  resource : Resource
  readFD : File
deriving DecidableEq, Repr

/-- What a call of `PressureStallInformation.String` did: the Results it
printed with `fmt.Println`, in order, and the `(string, error)` it returned. -/
structure Snapshot where
  printed : List Result
  value : GoString
  err : Option GoError
deriving DecidableEq, Repr

/-- The loop `for _, line := range strings.Split(res, "\n")` of
`PressureStallInformation.String`; `printed` holds what was printed so far. -/
def snapshotLoop : List GoString → List Result → Go Snapshot
  | [], printed => Go.ret ⟨printed, [], none⟩
  | line :: rest, printed =>
    if line = [] then snapshotLoop rest printed
    else
      match parsePressureEntry line with
      | Go.panic p => Go.panic p
      | Go.ret (_, some e) => Go.ret ⟨printed, [], some e⟩
      | Go.ret (r, none) => snapshotLoop rest (printed ++ [r])

/-- Go `(p *PressureStallInformation).String()`: one read into a buffer of
1024 bytes, then the loop over the lines read. The only way a Result leaves
the function is `fmt.Println(r)`; the returned string is always empty. -/
def PressureStallInformation.String (p : PressureStallInformation) : Go Snapshot :=
  match File.Read p.readFD 1024 with
  | (_, some e) => Go.ret ⟨[], [], some e⟩
  | (res, none) => snapshotLoop (Split res 10) []

/-- Go `(t Trigger).String()`:
`fmt.Sprintf("%s %d %d\n", t.Scope, t.Threshold.Microseconds(), t.Window.Microseconds())`. -/
def Trigger.String (t : Trigger) : GoString :=
  t.Scope ++ [32] ++ fmtInteger (Duration.Microseconds t.Threshold) ++ [32]
    ++ fmtInteger (Duration.Microseconds t.Window) ++ [10]

/-- The operating system as `NewTicker` meets it: what opening a path for
polling returns (a descriptor or an error) and what a write of some bytes to a
descriptor returns. -/
structure OS where
  openFile : GoString → Except GoError Nat
  write : Nat → GoString → Option GoError

/-- Go `(p *PressureStallInformation).openPoll()`:
`os.OpenFile(fmt.Sprintf("/proc/pressure/%s", p.resource), O_RDWR|O_NONBLOCK, 0)`. -/
def PressureStallInformation.openPoll (os : OS) (p : PressureStallInformation) :
    Except GoError Nat :=
  os.openFile (str "/proc/pressure/" ++ p.resource)

/-- Go `setTrigger(fd, trigger)`: one `Write` of `trigger.String()`; the error
of the write, if any. -/
def setTrigger (os : OS) (fd : Nat) (trigger : Trigger) : Option GoError :=
  os.write fd (Trigger.String trigger)

/-- Go `type Ticker struct`; the channel is identified by the descriptor its
goroutine polls. -/
structure Ticker where
  fd : Nat
deriving DecidableEq, Repr

/-- Go `(p *PressureStallInformation).NewTicker(trigger)` up to the start of
the goroutine: the returned `(*Ticker, error)`. -/
def PressureStallInformation.NewTicker (os : OS) (p : PressureStallInformation)
    (trigger : Trigger) : Option Ticker × Option GoError :=
  match PressureStallInformation.openPoll os p with
  | Except.error e => (none, some e)
  | Except.ok f =>
    match setTrigger os f trigger with
    | some e => (none, some e)
    | none => (some ⟨f⟩, none)

/-- Go `unix.POLLPRI`. -/
def POLLPRI : Nat := 2

/-- Go `unix.POLLERR`. -/
def POLLERR : Nat := 8

/-- One return of `unix.Poll` on the single descriptor of a ticker: the count
`n`, the error, and the `Revents` the kernel stored for the descriptor. -/
structure PollReturn where
  n : Int
  err : Option GoError
  revents : Nat
deriving DecidableEq, Repr

/-- What the goroutine of `NewTicker` meets in one iteration: the return of
`unix.Poll`, and whether the consumer receives from the channel in case the
iteration sends on it. The channel of `make(chan struct{})` has no buffer, so
a send completes only when a receiver takes the value, and blocks for ever
when none does. -/
structure Iteration where
  poll : PollReturn
  received : Bool
deriving DecidableEq, Repr

/-- What one iteration of the goroutine of `NewTicker` does. -/
inductive Event where
  /-- Go `fmt.Println("error: " + err.Error())`. -/
  | printErr (e : GoError)
  /-- Go `fmt.Println("error")`. -/
  | printError
  /-- Go `ch <- struct{}{}` completed: the consumer received the notification. -/
  | send
  /-- Go `ch <- struct{}{}` that no receiver takes: the goroutine stays in it. -/
  | sendBlocked
deriving DecidableEq, Repr

/-- Where an iteration of a `for` loop leaves the goroutine. -/
inductive Control where
  /-- The next iteration starts (`continue`, or the end of the body): the
  goroutine calls `unix.Poll` again. -/
  | next
  /-- The loop is left (`break`, `return`). -/
  | exit
  /-- The goroutine is blocked in a channel send and runs no further. -/
  | blocked
deriving DecidableEq, Repr

/-- The body of the loop of the goroutine of `NewTicker`, after `unix.Poll`
returned `it.poll`: the event of the iteration and how the goroutine goes on.
The body never reads `Revents`. In the default case it sends on the
unbuffered channel: the send completes and the loop goes on when the consumer
receives, and it blocks the goroutine when the consumer does not. -/
def tickerBody (it : Iteration) : Event × Control :=
  match it.poll.err with
  | some e => (Event.printErr e, Control.next)
  | none =>
    if it.poll.n < 0 then (Event.printError, Control.next)
    else if it.poll.n ≠ 1 then (Event.printError, Control.next)
    else if it.received then (Event.send, Control.next)
    else (Event.sendBlocked, Control.blocked)

/-- The goroutine of `NewTicker` run against successive iterations: the events
in order, up to the iteration that blocks it if one does, and the state of the
goroutine after them (`next`: about to poll again). -/
def tickerLoop : List Iteration → List Event × Control
  | [] => ([], Control.next)
  | it :: rest =>
    match tickerBody it with
    | (ev, Control.next) => (ev :: (tickerLoop rest).1, (tickerLoop rest).2)
    | (ev, c) => ([ev], c)

/-! ## Definitions that state the claims -/

/-- The decimal numeral of a natural number: its base 10 digits, most
significant first, as ASCII bytes; "0" for zero. -/
def decimalNat (n : Nat) : GoString :=
  if n = 0 then [48] else ((Nat.digits 10 n).reverse).map (fun d => 48 + d)

/-- The decimal numeral of an integer: a minus sign in front of a negative
one. -/
def decimalInt (z : Int) : GoString :=
  if z < 0 then 45 :: decimalNat z.natAbs else decimalNat z.natAbs

/-- The numeral of `k/100` with two decimals, as a pressure report prints an
average: the integer part, a dot, two digits. -/
def hundredths (k : Nat) : GoString :=
  decimalNat (k / 100) ++ [46, 48 + k % 100 / 10, 48 + k % 10]

/-- The report line `"<scope> avg10=<f> avg60=<f> avg300=<f> total=<i>"` for the
averages `avg10/100`, `avg60/100`, `avg300/100` and the counter `total`. -/
def reportLine (scope : Scope) (avg10 avg60 avg300 total : Nat) : GoString :=
  scope ++ str " avg10=" ++ hundredths avg10 ++ str " avg60=" ++ hundredths avg60
    ++ str " avg300=" ++ hundredths avg300 ++ str " total=" ++ decimalNat total

/-- The magnitude of a finite `float64`, read off its bit pattern, in units of
`2^-1074` (the smallest subnormal): the fraction field `f` for an exponent
field 0 (a subnormal or zero, `f * 2^-1074`), and `(2^52 + f) * 2^(e - 1)` for
an exponent field `e` from 1 to 2046 (a normal number,
`(1 + f / 2^52) * 2^(e - 1023)`). -/
def Float64.magnitude (x : Float64) : Nat :=
  if x.bits / 2 ^ 52 % 2048 = 0 then x.bits % 2 ^ 52
  else (2 ^ 52 + x.bits % 2 ^ 52) * 2 ^ (x.bits / 2 ^ 52 % 2048 - 1)

/-- The value of a finite `float64` in units of `2^-1074`: its magnitude, with
a minus sign when bit 63 is set. -/
def Float64.value (x : Float64) : Int :=
  if x.bits / 2 ^ 63 % 2 = 1 then -(x.magnitude : Int) else (x.magnitude : Int)

/-- A finite `float64`: a pattern of 64 bits whose exponent field is not all
ones (no infinity, no NaN). -/
def Float64.IsFinite (x : Float64) : Prop :=
  x.bits < 2 ^ 64 ∧ x.bits / 2 ^ 52 % 2048 ≠ 2047

/-- The distance of the finite `float64` `x` from the fraction `n/d`, times
`d * 2^1074`. -/
def Float64.distance (x : Float64) (n d : Nat) : Nat :=
  ((d : Int) * x.value - (n : Int) * 2 ^ 1074).natAbs

/-- The `float64` `x` is the one nearest to the fraction `n/d`: it is finite,
and every finite `float64` of another value is farther from `n/d`. This is
stated on the bit patterns alone; no conversion function occurs in it. -/
def Float64.IsNearest (x : Float64) (n d : Nat) : Prop :=
  x.IsFinite ∧
  ∀ y : Float64, y.IsFinite → y.value ≠ x.value → x.distance n d < y.distance n d

/-- The `float64` `x` is the two-decimal percentage `k/100`: `k/100` is at most
100.00, and `x` is the `float64` nearest to it, with the sign bit clear. -/
def Float64.IsHundredths (x : Float64) (k : Nat) : Prop :=
  k ≤ 10000 ∧ x.bits < 2 ^ 63 ∧ x.IsNearest k 100

/-- The values of an `int64`. -/
def InInt64 (z : Int) : Prop := -2 ^ 63 ≤ z ∧ z < 2 ^ 63

instance (z : Int) : Decidable (InInt64 z) := by
  unfold InInt64; infer_instance

/-- The value of a non-empty run of ASCII digits, `none` at any other byte. -/
def parseDecimalLoop : GoString → Nat → Option Nat
  | [], n => some n
  | c :: cs, n => if 48 ≤ c ∧ c ≤ 57 then parseDecimalLoop cs (n * 10 + (c - 48)) else none

/-- An unsigned decimal number as the kernel reads one: one or more ASCII
digits and nothing else. -/
def parseDecimal (s : GoString) : Option Nat :=
  if s = [] then none else parseDecimalLoop s 0

/-- Go `syscall.EINVAL`. -/
def EINVAL : GoError := GoError.errno 22

/-- Modelled from the spec: the kernel side of a trigger registration, which is
no part of the repository. A write to a pressure file must carry
`"<some|full> <threshold_us:int> <window_us:int>\n"` (spec, External
Interfaces); the kernel rejects malformed parameters and a threshold greater
than the window at the time of the write, as a write failure (spec, Data
Model). The result is the error of the write, `none` when the trigger is
armed. -/
def kernelTriggerWrite (text : GoString) : Option GoError :=
  match Split text 10 with
  | [line, []] =>
    match Split line 32 with
    | [scope, threshold, window] =>
      if scope = str "some" ∨ scope = str "full" then
        match parseDecimal threshold, parseDecimal window with
        | some th, some w => if w < th then some EINVAL else none
        | _, _ => some EINVAL
      else some EINVAL
    | _ => some EINVAL
  | _ => some EINVAL

/-- An operating system that opens every path (descriptor 3) and handles
writes as `kernelTriggerWrite` does. -/
def kernelOS : OS :=
  { openFile := fun _ => Except.ok 3, write := fun _ text => kernelTriggerWrite text }

/-- The first of the fields of a line split on single spaces. -/
def firstField (entry : GoString) : GoString := (Split entry 32).headD []

/-- The lines of a report that are not empty, in file order. -/
def nonEmptyLines (report : GoString) : List GoString :=
  (Split report 10).filter (fun line => line ≠ [])

/-- The descriptor of a poll return signaled the priority event: no error,
one descriptor ready, and `POLLPRI` among its `Revents`. -/
def signaledPriority (r : PollReturn) : Prop :=
  r.err = none ∧ r.n = 1 ∧ r.revents &&& POLLPRI ≠ 0

instance (r : PollReturn) : Decidable (signaledPriority r) := by
  unfold signaledPriority; infer_instance

/-- The number of notifications delivered among the events of a ticker. -/
def notifications (evs : List Event) : Nat := evs.count Event.send


/-! ## The parser: fields, errors, scope (C3, C5) -/

theorem Split_ne_nil (s : GoString) (sep : Nat) : Split s sep ≠ [] := by
  induction s with
  | nil => simp [Split]
  | cons c cs ih =>
    unfold Split
    split
    · simp
    · split <;> simp

theorem parsePressureEntry_fields (entry p0 p1 p2 p3 p4 : GoString) (rest : List GoString)
    (h : Split entry 32 = p0 :: p1 :: p2 :: p3 :: p4 :: rest) :
    parsePressureEntry entry =
      Go.bind (index (Split p1 61) 1) fun avg10 =>
      Go.bind (index (Split p2 61) 1) fun avg60 =>
      Go.bind (index (Split p3 61) 1) fun avg300 =>
      Go.bind (index (Split p4 61) 1) fun total =>
      Go.ret ({ Scope := if p0 = str "some" then ScopeSome else ScopeFull,
                Total := (Atoi total).1, Avg10 := (ParseFloat avg10).1,
                Avg60 := (ParseFloat avg60).1, Avg300 := (ParseFloat avg300).1 }, none) := by
  unfold parsePressureEntry
  simp [h, index, Go.bind]

theorem five_fields {α : Type} (l : List α) (h : ¬ l.length < 5) :
    ∃ p0 p1 p2 p3 p4 rest, l = p0 :: p1 :: p2 :: p3 :: p4 :: rest := by
  match l, h with
  | p0 :: p1 :: p2 :: p3 :: p4 :: rest, _ => exact ⟨p0, p1, p2, p3, p4, rest, rfl⟩
  | [], h => simp at h
  | [_], h => simp at h
  | [_, _], h => simp at h
  | [_, _, _], h => simp at h
  | [_, _, _, _], h => simp at h

theorem parsePressureEntry_short (entry : GoString) (h : (Split entry 32).length < 5) :
    parsePressureEntry entry = Go.ret (Result.zero, some (GoError.errorf (str "invalid entry"))) := by
  unfold parsePressureEntry
  simp [h]

/-- Claim C3: a line that splits on single spaces into fewer than 5 fields makes
`parsePressureEntry` return the zero Result together with the format error
`invalid entry` (it returns, it does not panic). -/
theorem parsePressureEntry_too_few_fields (entry : GoString)
    (h : (Split entry 32).length < 5) :
    parsePressureEntry entry =
      Go.ret (Result.zero, some (GoError.errorf (str "invalid entry"))) := by
  unfold parsePressureEntry
  rw [if_pos h]

/-- Witness of C3: the empty line has one field and fails with the format
error. -/
theorem parsePressureEntry_too_few_fields_witness :
    (Split [] 32).length < 5 ∧
    parsePressureEntry [] = Go.ret (Result.zero, some (GoError.errorf (str "invalid entry"))) :=
  ⟨by decide, parsePressureEntry_too_few_fields [] (by decide)⟩

theorem parsePressureEntry_ok_inv (entry : GoString) (r : Result)
    (h : parsePressureEntry entry = Go.ret (r, none)) :
    ∃ p0 p1 p2 p3 p4 rest avg10 avg60 avg300 total,
      Split entry 32 = p0 :: p1 :: p2 :: p3 :: p4 :: rest ∧
      index (Split p1 61) 1 = Go.ret avg10 ∧ index (Split p2 61) 1 = Go.ret avg60 ∧
      index (Split p3 61) 1 = Go.ret avg300 ∧ index (Split p4 61) 1 = Go.ret total ∧
      r = { Scope := if p0 = str "some" then ScopeSome else ScopeFull,
            Total := (Atoi total).1, Avg10 := (ParseFloat avg10).1,
            Avg60 := (ParseFloat avg60).1, Avg300 := (ParseFloat avg300).1 } := by
  by_cases hlen : (Split entry 32).length < 5
  · rw [parsePressureEntry_short entry hlen] at h
    simp at h
  · obtain ⟨p0, p1, p2, p3, p4, rest, hs⟩ := five_fields _ hlen
    rw [parsePressureEntry_fields entry p0 p1 p2 p3 p4 rest hs] at h
    refine ⟨p0, p1, p2, p3, p4, rest, ?_⟩
    cases h1 : index (Split p1 61) 1 with
    | panic q => simp [h1, Go.bind] at h
    | ret a1 =>
      cases h2 : index (Split p2 61) 1 with
      | panic q => simp [h1, h2, Go.bind] at h
      | ret a2 =>
        cases h3 : index (Split p3 61) 1 with
        | panic q => simp [h1, h2, h3, Go.bind] at h
        | ret a3 =>
          cases h4 : index (Split p4 61) 1 with
          | panic q => simp [h1, h2, h3, h4, Go.bind] at h
          | ret a4 =>
            simp only [h1, h2, h3, h4, Go.bind, Go.ret.injEq, Prod.mk.injEq, and_true] at h
            exact ⟨a1, a2, a3, a4, hs, rfl, rfl, rfl, rfl, h.symm⟩

theorem ScopeSome_ne_ScopeFull : ScopeSome ≠ ScopeFull := by decide

/-- Claim C5: on every line that `parsePressureEntry` parses without error, the
scope of the Result is `some` exactly when the first space-separated field is
the literal "some"; any other first field gives the scope `full`. -/
theorem scope_parsing_lenient (entry : GoString) (r : Result)
    (h : parsePressureEntry entry = Go.ret (r, none)) :
    (r.Scope = ScopeSome ↔ firstField entry = str "some") ∧
    (firstField entry ≠ str "some" → r.Scope = ScopeFull) := by
  obtain ⟨p0, p1, p2, p3, p4, rest, a1, a2, a3, a4, hs, -, -, -, -, hr⟩ :=
    parsePressureEntry_ok_inv entry r h
  subst hr
  simp only [firstField, hs, List.headD_cons]
  by_cases hp : p0 = str "some"
  · simp [hp]
  · simp [hp, ScopeSome_ne_ScopeFull.symm]

/-- Witness of C5: a line whose first field is "Some" parses to the scope
`full`. -/
theorem scope_parsing_lenient_witness :
    parsePressureEntry (str "Some avg10=0.00 avg60=0.00 avg300=0.00 total=0") =
      Go.ret (⟨ScopeFull, 0, ⟨0⟩, ⟨0⟩, ⟨0⟩⟩, none) ∧
    ((ScopeFull = ScopeSome ↔
        firstField (str "Some avg10=0.00 avg60=0.00 avg300=0.00 total=0") = str "some") ∧
     (firstField (str "Some avg10=0.00 avg60=0.00 avg300=0.00 total=0") ≠ str "some" →
        ScopeFull = ScopeFull)) :=
  ⟨by decide,
   scope_parsing_lenient (str "Some avg10=0.00 avg60=0.00 avg300=0.00 total=0")
     ⟨ScopeFull, 0, ⟨0⟩, ⟨0⟩, ⟨0⟩⟩ (by decide)⟩

/-! ## The snapshot loop (C6, C9) -/

theorem snapshotLoop_ok (lines : List GoString) (printed : List Result)
    (h : ∀ line ∈ lines, line ≠ [] → ∃ r, parsePressureEntry line = Go.ret (r, none)) :
    ∃ rs, snapshotLoop lines printed = Go.ret ⟨printed ++ rs, [], none⟩ ∧
      rs.map (fun r => Go.ret (r, (none : Option GoError))) =
        (lines.filter (fun line => line ≠ [])).map parsePressureEntry := by
  induction lines generalizing printed with
  | nil => exact ⟨[], by simp [snapshotLoop]⟩
  | cons line rest ih =>
    have hrest : ∀ l ∈ rest, l ≠ [] → ∃ r, parsePressureEntry l = Go.ret (r, none) :=
      fun l hl => h l (List.mem_cons_of_mem _ hl)
    by_cases hl : line = []
    · obtain ⟨rs, h1, h2⟩ := ih printed hrest
      exact ⟨rs, by simp [snapshotLoop, hl, h1], by simp [hl, h2]⟩
    · obtain ⟨r, hr⟩ := h line (List.mem_cons_self _ _) hl
      obtain ⟨rs, h1, h2⟩ := ih (printed ++ [r]) hrest
      refine ⟨r :: rs, ?_, ?_⟩
      · simp [snapshotLoop, hl, hr, h1]
      · simp [hl, hr, h2]

/-- Claim C6: when the read succeeds, the report has at most 1024 bytes and
each of its non-empty lines parses without error, `PressureStallInformation.String`
returns after printing exactly one Result per non-empty line, each the Result
`parsePressureEntry` gives for that line, in file order; empty lines print
nothing, and no error is returned for a report that is not empty. -/
theorem snapshot_one_result_per_line (p : PressureStallInformation)
    (hread : p.readFD.failure = none) (hsize : p.readFD.content.length ≤ 1024)
    (hparse : ∀ line ∈ nonEmptyLines p.readFD.content,
      ∃ r, parsePressureEntry line = Go.ret (r, none)) :
    ∃ s, PressureStallInformation.String p = Go.ret s ∧
      s.printed.map (fun r => Go.ret (r, (none : Option GoError))) =
        (nonEmptyLines p.readFD.content).map parsePressureEntry ∧
      s.printed.length = (nonEmptyLines p.readFD.content).length ∧
      (p.readFD.content ≠ [] → s.err = none) := by
  by_cases hc : p.readFD.content = []
  · refine ⟨⟨[], [], some GoError.eof⟩, ?_, ?_, ?_, ?_⟩
    · simp [PressureStallInformation.String, File.Read, hread, hc]
    · simp [nonEmptyLines, hc, Split]
    · simp [nonEmptyLines, hc, Split]
    · intro h; exact absurd hc h
  · have htake : p.readFD.content.take 1024 = p.readFD.content := List.take_of_length_le hsize
    have hall : ∀ line ∈ Split p.readFD.content 10, line ≠ [] →
        ∃ r, parsePressureEntry line = Go.ret (r, none) := by
      intro line hmem hne
      exact hparse line (by simp [nonEmptyLines, List.mem_filter, hmem, hne])
    obtain ⟨rs, h1, h2⟩ := snapshotLoop_ok (Split p.readFD.content 10) [] hall
    refine ⟨⟨rs, [], none⟩, ?_, ?_, ?_, ?_⟩
    · simp [PressureStallInformation.String, File.Read, hread, hc, htake, h1]
    · simpa [nonEmptyLines] using h2
    · have := congrArg List.length h2
      simpa [nonEmptyLines] using this
    · intro _; rfl

/-- Witness of C6: a report of two lines, "some ..." then "full ...", prints
exactly two Results, the `some` entry first. -/
theorem snapshot_one_result_per_line_witness :
    ∃ s, PressureStallInformation.String
        ⟨ResourceMemory, ⟨str ("some avg10=0.00 avg60=1.25 avg300=0.50 total=482931\n" ++
          "full avg10=0.00 avg60=0.00 avg300=0.00 total=7\n"), none⟩⟩ = Go.ret s ∧
      s.printed = [⟨ScopeSome, 482931, ⟨0⟩, ⟨0x3FF4000000000000⟩, ⟨0x3FE0000000000000⟩⟩,
                   ⟨ScopeFull, 7, ⟨0⟩, ⟨0⟩, ⟨0⟩⟩] := by
  obtain ⟨s, h1, h2, -, -⟩ := snapshot_one_result_per_line
    ⟨ResourceMemory, ⟨str ("some avg10=0.00 avg60=1.25 avg300=0.50 total=482931\n" ++
          "full avg10=0.00 avg60=0.00 avg300=0.00 total=7\n"), none⟩⟩ rfl (by decide)
    (fun line hmem => by
      have hl : nonEmptyLines (str ("some avg10=0.00 avg60=1.25 avg300=0.50 total=482931\n" ++
          "full avg10=0.00 avg60=0.00 avg300=0.00 total=7\n")) =
          [str "some avg10=0.00 avg60=1.25 avg300=0.50 total=482931",
           str "full avg10=0.00 avg60=0.00 avg300=0.00 total=7"] := by decide
      simp only [hl, List.mem_cons, List.mem_singleton, List.not_mem_nil, or_false] at hmem
      rcases hmem with h | h
      · subst h
        exact ⟨⟨ScopeSome, 482931, ⟨0⟩, ⟨0x3FF4000000000000⟩, ⟨0x3FE0000000000000⟩⟩, by decide⟩
      · subst h
        exact ⟨⟨ScopeFull, 7, ⟨0⟩, ⟨0⟩, ⟨0⟩⟩, by decide⟩)
  refine ⟨s, h1, ?_⟩
  have h3 : (nonEmptyLines (str ("some avg10=0.00 avg60=1.25 avg300=0.50 total=482931\n" ++
          "full avg10=0.00 avg60=0.00 avg300=0.00 total=7\n"))).map parsePressureEntry =
      [Go.ret (⟨ScopeSome, 482931, ⟨0⟩, ⟨0x3FF4000000000000⟩, ⟨0x3FE0000000000000⟩⟩, none),
       Go.ret (⟨ScopeFull, 7, ⟨0⟩, ⟨0⟩, ⟨0⟩⟩, none)] := by decide
  rw [h3] at h2
  match hs : s.printed, h2 with
  | [a, b], h2 =>
    simp only [List.map_cons, List.map_nil, List.cons.injEq, Go.ret.injEq, Prod.mk.injEq,
      and_true] at h2
    rw [h2.1, h2.2]

/-! ## The poll loop of a ticker (C7) -/

theorem tickerBody_sends (it : Iteration) :
    ((tickerBody it).1 = Event.send ∨ (tickerBody it).1 = Event.sendBlocked) ↔
      (it.poll.err = none ∧ it.poll.n = 1) := by
  unfold tickerBody
  cases hr : it.poll.err with
  | some e => simp
  | none =>
    by_cases h0 : it.poll.n < 0
    · simp [h0]; omega
    · by_cases h1 : it.poll.n = 1
      · cases hrec : it.received <;> simp [h1]
      · simp [h0, h1]

theorem tickerBody_delivers (it : Iteration) :
    (tickerBody it).1 = Event.send ↔
      (it.poll.err = none ∧ it.poll.n = 1 ∧ it.received = true) := by
  unfold tickerBody
  cases hr : it.poll.err with
  | some e => simp
  | none =>
    by_cases h0 : it.poll.n < 0
    · simp [h0]; omega
    · by_cases h1 : it.poll.n = 1
      · cases hrec : it.received <;> simp [h1]
      · simp [h0, h1]

theorem tickerBody_control (it : Iteration) :
    (tickerBody it).2 =
      (if it.poll.err = none ∧ it.poll.n = 1 ∧ it.received = false then Control.blocked
       else Control.next) := by
  unfold tickerBody
  cases hr : it.poll.err with
  | some e => simp
  | none =>
    by_cases h0 : it.poll.n < 0
    · have : it.poll.n ≠ 1 := by omega
      simp [h0, this]
    · by_cases h1 : it.poll.n = 1
      · cases hrec : it.received <;> simp [h1]
      · simp [h0, h1]

theorem tickerLoop_all_received (run : List Iteration)
    (hrecv : ∀ it ∈ run, it.poll.err = none → it.poll.n = 1 → it.received = true) :
    tickerLoop run = (run.map (fun it => (tickerBody it).1), Control.next) := by
  induction run with
  | nil => simp [tickerLoop]
  | cons it rest ih =>
    have hc : (tickerBody it).2 = Control.next := by
      rw [tickerBody_control]
      have := hrecv it (List.mem_cons_self _ _)
      split_ifs with h
      · have := this h.1 h.2.1
        simp [h.2.2] at this
      · rfl
    have ih1 := ih (fun x hx => hrecv x (List.mem_cons_of_mem _ hx))
    unfold tickerLoop
    cases hq : tickerBody it with
    | mk ev c =>
      rw [hq] at hc
      simp only at hc
      subst hc
      simp [ih1, hq]

theorem tickerLoop_blocks (run post : List Iteration) (it : Iteration)
    (hrecv : ∀ x ∈ run, x.poll.err = none → x.poll.n = 1 → x.received = true)
    (h1 : it.poll.err = none) (h2 : it.poll.n = 1) (h3 : it.received = false) :
    tickerLoop (run ++ it :: post) =
      (run.map (fun x => (tickerBody x).1) ++ [Event.sendBlocked], Control.blocked) := by
  have hit : tickerBody it = (Event.sendBlocked, Control.blocked) := by
    unfold tickerBody
    simp [h1, h2, h3]
  induction run with
  | nil =>
    unfold tickerLoop
    simp [hit]
  | cons x rest ih =>
    have hc : (tickerBody x).2 = Control.next := by
      rw [tickerBody_control]
      have := hrecv x (List.mem_cons_self _ _)
      split_ifs with h
      · have := this h.1 h.2.1
        simp [h.2.2] at this
      · rfl
    have ih1 := ih (fun y hy => hrecv y (List.mem_cons_of_mem _ hy))
    rw [List.cons_append]
    unfold tickerLoop
    cases hq : tickerBody x with
    | mk ev c =>
      rw [hq] at hc
      simp only at hc
      subst hc
      simp [ih1, hq]

/-- Claim C7, amended: an iteration sends on the channel exactly when the
return of `unix.Poll` has no error and the count 1, whatever `Revents` holds,
and prints an error otherwise; the goroutine goes on to poll again after every
iteration except a send that the consumer does not receive, which blocks it.
So against every sequence of iterations whose sends are all received, the loop
handles the returns one by one in order, delivers as many notifications as
there are returns with no error and count 1, and is about to poll again after
the last one; and a later send that is not received leaves the goroutine
blocked in that send, the returns after it unhandled. -/
theorem ticker_sends_on_count_one (run : List Iteration)
    (hrecv : ∀ it ∈ run, it.poll.err = none → it.poll.n = 1 → it.received = true) :
    (∀ it : Iteration, ((tickerBody it).1 = Event.send ∨ (tickerBody it).1 = Event.sendBlocked) ↔
      (it.poll.err = none ∧ it.poll.n = 1)) ∧
    (∀ it : Iteration, (tickerBody it).2 =
      (if it.poll.err = none ∧ it.poll.n = 1 ∧ it.received = false then Control.blocked
       else Control.next)) ∧
    (tickerLoop run).2 = Control.next ∧
    (tickerLoop run).1 = run.map (fun it => (tickerBody it).1) ∧
    notifications (tickerLoop run).1 =
      (run.filter (fun it => it.poll.err = none ∧ it.poll.n = 1)).length ∧
    (∀ (it : Iteration) (post : List Iteration),
      it.poll.err = none → it.poll.n = 1 → it.received = false →
      tickerLoop (run ++ it :: post) =
        (run.map (fun x => (tickerBody x).1) ++ [Event.sendBlocked], Control.blocked)) := by
  have hloop := tickerLoop_all_received run hrecv
  refine ⟨tickerBody_sends, tickerBody_control, by rw [hloop], by rw [hloop], ?_,
    fun it post h1 h2 h3 => tickerLoop_blocks run post it hrecv h1 h2 h3⟩
  rw [hloop]
  unfold notifications
  clear hloop
  induction run with
  | nil => simp
  | cons it rest ih =>
    have ih1 := ih (fun x hx => hrecv x (List.mem_cons_of_mem _ hx))
    simp only [List.map_cons, List.filter_cons, List.count_cons]
    by_cases h : it.poll.err = none ∧ it.poll.n = 1
    · have hr := hrecv it (List.mem_cons_self _ _) h.1 h.2
      have := (tickerBody_delivers it).2 ⟨h.1, h.2, hr⟩
      simp [h, this, ih1]
    · have : (tickerBody it).1 ≠ Event.send :=
        fun hc => h ⟨((tickerBody_delivers it).1 hc).1, ((tickerBody_delivers it).1 hc).2.1⟩
      simp [h, this, ih1]

/-- Witness of C7, amended: a priority event that is received, a return with
count 0 and a failed poll give one notification and a loop about to poll
again; a further send that is not received blocks the goroutine, and the
return after it is not handled. -/
theorem ticker_sends_on_count_one_witness :
    notifications (tickerLoop [⟨⟨1, none, POLLPRI⟩, true⟩, ⟨⟨0, none, 0⟩, false⟩,
      ⟨⟨-1, some (GoError.errno 4), 0⟩, false⟩]).1 = 1 ∧
    (tickerLoop [⟨⟨1, none, POLLPRI⟩, true⟩, ⟨⟨0, none, 0⟩, false⟩,
      ⟨⟨-1, some (GoError.errno 4), 0⟩, false⟩]).2 = Control.next ∧
    tickerLoop ([⟨⟨1, none, POLLPRI⟩, true⟩, ⟨⟨0, none, 0⟩, false⟩,
      ⟨⟨-1, some (GoError.errno 4), 0⟩, false⟩] ++
        ⟨⟨1, none, POLLPRI⟩, false⟩ :: [⟨⟨1, none, POLLPRI⟩, true⟩]) =
      ([Event.send, Event.printError, Event.printErr (GoError.errno 4), Event.sendBlocked],
        Control.blocked) := by
  have h := ticker_sends_on_count_one [⟨⟨1, none, POLLPRI⟩, true⟩, ⟨⟨0, none, 0⟩, false⟩,
      ⟨⟨-1, some (GoError.errno 4), 0⟩, false⟩] (by decide)
  refine ⟨?_, h.2.2.1, ?_⟩
  · rw [h.2.2.2.2.1]; decide
  · rw [h.2.2.2.2.2 ⟨⟨1, none, POLLPRI⟩, false⟩ [⟨⟨1, none, POLLPRI⟩, true⟩] rfl rfl rfl]
    decide

/-- Counterexample to C7 as stated: a return with count 1 whose descriptor
reports `POLLERR`, not `POLLPRI`, makes the loop send a notification, which the
consumer receives. -/
theorem ticker_emits_without_priority_event :
    ¬ signaledPriority ⟨1, none, POLLERR⟩ ∧
    tickerLoop [⟨⟨1, none, POLLERR⟩, true⟩] = ([Event.send], Control.next) := by
  decide

/-! ## Values returned with a conversion error (C10), index panics (C4) -/

theorem index_of_get? {α : Type} (xs : List α) (i : Nat) (x : α) (h : xs.get? i = some x) :
    index xs i = Go.ret x := by
  unfold index
  rw [h]

theorem parsePressureEntry_panics_of_no_equals (entry p0 p1 p2 p3 p4 : GoString)
    (rest : List GoString) (hs : Split entry 32 = p0 :: p1 :: p2 :: p3 :: p4 :: rest)
    (h : 61 ∉ p1) :
    parsePressureEntry entry = Go.panic (RuntimePanic.indexOutOfRange 1 1) := by
  have hsplit : Split p1 61 = [p1] := by
    clear hs
    induction p1 with
    | nil => simp [Split]
    | cons c cs ih =>
      have hc : c ≠ 61 := fun hc => h (by simp [hc])
      have hcs : 61 ∉ cs := fun hm => h (List.mem_cons_of_mem _ hm)
      simp [Split, hc, ih hcs]
  rw [parsePressureEntry_fields entry p0 p1 p2 p3 p4 rest hs, hsplit]
  rfl

/-- Claim C4, the failing input: the line "some avg10 avg60 avg300 total" has 5
fields; `strings.Split(parts[1], "=")` has one element, so taking element 1
panics with an index out of range. -/
theorem parsePressureEntry_panics_without_equals :
    5 ≤ (Split (str "some avg10 avg60 avg300 total") 32).length ∧
    parsePressureEntry (str "some avg10 avg60 avg300 total") =
      Go.panic (RuntimePanic.indexOutOfRange 1 1) := by
  decide

/-! ## The trigger encoder (C1) -/

theorem decimalNat_of_lt_ten (u : Nat) (h : u < 10) : decimalNat u = [48 + u] := by
  unfold decimalNat
  split_ifs with h0
  · simp [h0]
  · rw [Nat.digits_of_lt 10 u h0 h]
    simp

theorem decimalNat_step (u : Nat) (h : 10 ≤ u) :
    decimalNat u = decimalNat (u / 10) ++ [48 + u % 10] := by
  have h0 : u ≠ 0 := by omega
  have h1 : u / 10 ≠ 0 := by omega
  unfold decimalNat
  rw [if_neg h0, if_neg h1, Nat.digits_def' (by norm_num) (by omega)]
  simp

theorem fmtDigits_eq (fuel : Nat) : ∀ (u : Nat) (acc : GoString), u < 10 ^ (fuel + 1) →
    fmtDigits fuel u acc = decimalNat u ++ acc := by
  induction fuel with
  | zero =>
    intro u acc h
    have h10 : u < 10 := by simpa using h
    simp [fmtDigits, decimalNat_of_lt_ten u h10, Nat.mod_eq_of_lt h10]
  | succ fuel ih =>
    intro u acc h
    unfold fmtDigits
    split_ifs with h10
    · have hlt : u / 10 < 10 ^ (fuel + 1) := by
        rw [Nat.div_lt_iff_lt_mul (by norm_num)]
        calc u < 10 ^ (fuel + 1 + 1) := h
          _ = 10 ^ (fuel + 1) * 10 := by ring
      rw [ih (u / 10) _ hlt, decimalNat_step u h10]
      have : u - u / 10 * 10 = u % 10 := by omega
      simp [this]
    · have h10 : u < 10 := by omega
      simp [decimalNat_of_lt_ten u h10]

theorem fmtInteger_eq (v : Int) (h : InInt64 v) : fmtInteger v = decimalInt v := by
  obtain ⟨hlo, hhi⟩ := h
  unfold fmtInteger decimalInt
  by_cases hneg : v < 0
  · have hu : (2 ^ 64 - (v % 2 ^ 64).toNat) % 2 ^ 64 = v.natAbs := by omega
    simp only [hneg, if_true, hu]
    rw [fmtDigits_eq 20 v.natAbs [] (by omega)]
    simp
  · have hu : (v % 2 ^ 64).toNat = v.natAbs := by omega
    simp only [hneg, if_false, hu]
    rw [fmtDigits_eq 20 v.natAbs [] (by omega)]
    simp

theorem Microseconds_InInt64 (d : Int) (h : InInt64 d) :
    InInt64 (Duration.Microseconds d) := by
  obtain ⟨hlo, hhi⟩ := h
  unfold Duration.Microseconds InInt64
  rcases Int.le_total 0 d with hd | hd
  · rw [Int.tdiv_eq_ediv hd (by norm_num)]
    omega
  · obtain ⟨k, hk⟩ : ∃ k : Int, d = -k := ⟨-d, (Int.neg_neg d).symm⟩
    subst hk
    rw [Int.neg_tdiv, Int.tdiv_eq_ediv (by omega) (by norm_num)]
    omega

/-- Claim C1: for every Trigger (its durations being `int64` nanoseconds),
`Trigger.String` is the scope text, one space, the decimal numeral of the
threshold in microseconds (nanoseconds divided by 1000, truncated toward zero),
one space, the decimal numeral of the window in microseconds, one newline. -/
theorem Trigger_String_exact (t : Trigger) (hT : InInt64 t.Threshold) (hW : InInt64 t.Window) :
    Trigger.String t =
      t.Scope ++ str " " ++ decimalInt (Int.tdiv t.Threshold 1000) ++ str " "
        ++ decimalInt (Int.tdiv t.Window 1000) ++ str "\n" := by
  have h1 := fmtInteger_eq _ (Microseconds_InInt64 t.Threshold hT)
  have h2 := fmtInteger_eq _ (Microseconds_InInt64 t.Window hW)
  have hsp : str " " = [32] := by decide
  have hnl : str "\n" = [10] := by decide
  unfold Trigger.String
  rw [h1, h2, hsp, hnl]
  rfl

/-- Witness of C1: the trigger of scope `some`, threshold 100ms and window 1s
encodes to exactly "some 100000 1000000" and a newline. -/
theorem Trigger_String_exact_witness :
    Trigger.String ⟨100 * Millisecond, 1 * Second, ScopeSome⟩ =
        ScopeSome ++ str " " ++ decimalInt (Int.tdiv (100 * Millisecond) 1000) ++ str " "
          ++ decimalInt (Int.tdiv (1 * Second) 1000) ++ str "\n" ∧
    Trigger.String ⟨100 * Millisecond, 1 * Second, ScopeSome⟩ = str "some 100000 1000000\n" :=
  ⟨Trigger_String_exact ⟨100 * Millisecond, 1 * Second, ScopeSome⟩ (by decide) (by decide),
   by decide⟩

/-! ## Splitting and decimal numerals -/

theorem Split_cons_sep (cs : GoString) (sep : Nat) :
    Split (sep :: cs) sep = [] :: Split cs sep := by
  simp [Split]

theorem Split_cons_of_ne (c : Nat) (cs p : GoString) (ps : List GoString) (sep : Nat)
    (hc : c ≠ sep) (h : Split cs sep = p :: ps) : Split (c :: cs) sep = (c :: p) :: ps := by
  simp [Split, hc, h]

theorem Split_append_sep (a b : GoString) (sep : Nat) :
    Split (a ++ sep :: b) sep = Split a sep ++ Split b sep := by
  induction a with
  | nil => simp [Split]
  | cons c cs ih =>
    by_cases hc : c = sep
    · subst hc
      rw [List.cons_append, Split_cons_sep, Split_cons_sep, ih, List.cons_append]
    · cases hcs : Split cs sep with
      | nil => exact absurd hcs (Split_ne_nil cs sep)
      | cons p ps =>
        rw [hcs] at ih
        rw [List.cons_append, Split_cons_of_ne c _ p (ps ++ Split b sep) sep hc ih,
          Split_cons_of_ne c _ p ps sep hc hcs, List.cons_append]

theorem Split_of_not_mem (a : GoString) (sep : Nat) (h : sep ∉ a) : Split a sep = [a] := by
  induction a with
  | nil => simp [Split]
  | cons c cs ih =>
    have hc : c ≠ sep := fun hc => h (by simp [hc])
    have hcs : sep ∉ cs := fun hm => h (List.mem_cons_of_mem _ hm)
    simp [Split, hc, ih hcs]

theorem Split_singleton (s x : GoString) (sep : Nat) (h : Split s sep = [x]) : s = x := by
  induction s generalizing x with
  | nil => simpa [Split] using h
  | cons c cs ih =>
    unfold Split at h
    split_ifs at h with hc
    · have := Split_ne_nil cs sep
      simp at h
      exact absurd h.2 this
    · cases hcs : Split cs sep with
      | nil => exact absurd hcs (Split_ne_nil cs sep)
      | cons p ps =>
        rw [hcs] at h
        simp only [List.cons.injEq] at h
        obtain ⟨h1, h2⟩ := h
        subst h2
        rw [ih p hcs, h1]

theorem Split_cons_cons (s x y : GoString) (l : List GoString) (sep : Nat)
    (h : Split s sep = x :: y :: l) :
    ∃ s1, s = x ++ sep :: s1 ∧ Split s1 sep = y :: l := by
  induction s generalizing x with
  | nil => simp [Split] at h
  | cons c cs ih =>
    unfold Split at h
    split_ifs at h with hc
    · simp only [List.cons.injEq] at h
      exact ⟨cs, by simp [← h.1, hc], h.2⟩
    · cases hcs : Split cs sep with
      | nil => exact absurd hcs (Split_ne_nil cs sep)
      | cons p ps =>
        rw [hcs] at h
        simp only [List.cons.injEq] at h
        obtain ⟨h1, h2⟩ := h
        subst h2
        obtain ⟨s1, hs1, hs2⟩ := ih p hcs
        exact ⟨s1, by simp [← h1, hs1], hs2⟩

theorem decimalNat_digit (n c : Nat) (h : c ∈ decimalNat n) : 48 ≤ c ∧ c ≤ 57 := by
  unfold decimalNat at h
  split_ifs at h with h0
  · simp at h; omega
  · simp only [List.mem_map, List.mem_reverse] at h
    obtain ⟨d, hd, rfl⟩ := h
    have := Nat.digits_lt_base (by norm_num : 1 < 10) hd
    omega

theorem decimalNat_ne_nil (n : Nat) : decimalNat n ≠ [] := by
  unfold decimalNat
  split_ifs with h0
  · simp
  · simp [Nat.digits_eq_nil_iff_eq_zero, h0]

theorem parseDecimalLoop_snoc (xs : GoString) (c acc : Nat) :
    parseDecimalLoop (xs ++ [c]) acc =
      (parseDecimalLoop xs acc).bind (fun m => parseDecimalLoop [c] m) := by
  induction xs generalizing acc with
  | nil => simp [parseDecimalLoop]
  | cons x xs ih =>
    rw [List.cons_append]
    by_cases hx : 48 ≤ x ∧ x ≤ 57
    · rw [parseDecimalLoop, if_pos hx, ih]
      conv_rhs => rw [parseDecimalLoop, if_pos hx]
    · rw [parseDecimalLoop, if_neg hx]
      conv_rhs => rw [parseDecimalLoop, if_neg hx]
      rfl

theorem parseDecimalLoop_decimalNat (n : Nat) : parseDecimalLoop (decimalNat n) 0 = some n := by
  induction n using Nat.strong_induction_on with
  | _ n ih =>
    by_cases h : n < 10
    · rw [decimalNat_of_lt_ten n h]
      simp [parseDecimalLoop]
      omega
    · have h10 : 10 ≤ n := by omega
      rw [decimalNat_step n h10, parseDecimalLoop_snoc, ih (n / 10) (by omega)]
      simp [parseDecimalLoop]
      omega

theorem parseDecimal_decimalNat (n : Nat) : parseDecimal (decimalNat n) = some n := by
  unfold parseDecimal
  rw [if_neg (decimalNat_ne_nil n), parseDecimalLoop_decimalNat]

theorem parseDecimalLoop_digits (s : GoString) (acc a : Nat)
    (h : parseDecimalLoop s acc = some a) : ∀ c ∈ s, 48 ≤ c ∧ c ≤ 57 := by
  induction s generalizing acc with
  | nil => simp
  | cons x xs ih =>
    unfold parseDecimalLoop at h
    split_ifs at h with hx
    intro c hc
    rcases List.mem_cons.1 hc with rfl | hc
    · exact hx
    · exact ih _ h c hc

theorem parseDecimal_digits (s : GoString) (a : Nat) (h : parseDecimal s = some a) :
    ∀ c ∈ s, 48 ≤ c ∧ c ≤ 57 := by
  unfold parseDecimal at h
  split_ifs at h
  exact parseDecimalLoop_digits s 0 a h

theorem decimalInt_no_space (z : Int) : 32 ∉ decimalInt z := by
  intro h
  unfold decimalInt at h
  split_ifs at h
  · rcases List.mem_cons.1 h with h | h
    · omega
    · have := decimalNat_digit _ _ h; omega
  · have := decimalNat_digit _ _ h; omega

theorem parseDecimal_decimalInt (z : Int) (a : Nat) (h : parseDecimal (decimalInt z) = some a) :
    z = a := by
  unfold decimalInt at h
  split_ifs at h with hz
  · have := parseDecimal_digits _ _ h 45 (by simp)
    omega
  · rw [parseDecimal_decimalNat] at h
    simp at h
    omega

theorem first_sep_inj (x y u v : GoString) (c : Nat) (hx : c ∉ x) (hy : c ∉ y)
    (h : x ++ c :: u = y ++ c :: v) : x = y ∧ u = v := by
  induction x generalizing y with
  | nil =>
    cases y with
    | nil => simpa using h
    | cons b y =>
      simp only [List.nil_append, List.cons_append, List.cons.injEq] at h
      exact absurd (by simp [h.1]) hy
  | cons a x ih =>
    cases y with
    | nil =>
      simp only [List.nil_append, List.cons_append, List.cons.injEq] at h
      exact absurd (by simp [h.1]) hx
    | cons b y =>
      simp only [List.cons_append, List.cons.injEq] at h
      obtain ⟨hxy, huv⟩ := ih y (fun hm => hx (List.mem_cons_of_mem _ hm))
        (fun hm => hy (List.mem_cons_of_mem _ hm)) h.2
      exact ⟨by rw [h.1, hxy], huv⟩

theorem last_sep_inj (a a1 b b1 : GoString) (c : Nat) (hb : c ∉ b) (hb1 : c ∉ b1)
    (h : a ++ c :: b = a1 ++ c :: b1) : a = a1 ∧ b = b1 := by
  have hr := congrArg List.reverse h
  simp only [List.reverse_append, List.reverse_cons, List.append_assoc, List.singleton_append]
    at hr
  have := first_sep_inj b.reverse b1.reverse a.reverse a1.reverse c (by simpa using hb)
    (by simpa using hb1) hr
  exact ⟨List.reverse_injective this.2, List.reverse_injective this.1⟩

theorem kernelTriggerWrite_accepts (text : GoString) (h : kernelTriggerWrite text = none) :
    ∃ scope th w a b, text = scope ++ 32 :: (th ++ 32 :: (w ++ [10])) ∧
      (scope = str "some" ∨ scope = str "full") ∧
      parseDecimal th = some a ∧ parseDecimal w = some b ∧ ¬ b < a := by
  unfold kernelTriggerWrite at h
  split at h
  · rename_i line hl
    split at h
    · rename_i scope th w hf
      split_ifs at h with hscope
      split at h
      · rename_i a b ha hb
        split_ifs at h with hlt
        refine ⟨scope, th, w, a, b, ?_, hscope, ha, hb, hlt⟩
        obtain ⟨s1, hs1, hs2⟩ := Split_cons_cons _ _ _ _ _ hl
        have hs3 := Split_singleton _ _ _ hs2
        obtain ⟨t1, ht1, ht2⟩ := Split_cons_cons _ _ _ _ _ hf
        obtain ⟨t2, ht3, ht4⟩ := Split_cons_cons _ _ _ _ _ ht2
        have ht5 := Split_singleton _ _ _ ht4
        subst hs3 ht5
        rw [hs1, ht1, ht3]
        simp
      · simp [EINVAL] at h
    · simp [EINVAL] at h
  · simp [EINVAL] at h

theorem Trigger_String_fields (t : Trigger) (hT : InInt64 t.Threshold) (hW : InInt64 t.Window) :
    Trigger.String t =
      t.Scope ++ 32 :: (decimalInt (Int.tdiv t.Threshold 1000) ++
        32 :: (decimalInt (Int.tdiv t.Window 1000) ++ [10])) := by
  unfold Trigger.String
  rw [fmtInteger_eq _ (Microseconds_InInt64 t.Threshold hT),
    fmtInteger_eq _ (Microseconds_InInt64 t.Window hW)]
  simp [Duration.Microseconds]

theorem kernel_rejects_threshold_above_window (t : Trigger) (hT : InInt64 t.Threshold)
    (hW : InInt64 t.Window)
    (h : Duration.Microseconds t.Window < Duration.Microseconds t.Threshold) :
    kernelTriggerWrite (Trigger.String t) ≠ none := by
  intro hacc
  obtain ⟨scope, th, w, a, b, htext, -, ha, hb, hab⟩ := kernelTriggerWrite_accepts _ hacc
  rw [Trigger_String_fields t hT hW] at htext
  have h1 : (t.Scope ++ 32 :: decimalInt (Int.tdiv t.Threshold 1000)) ++
      32 :: decimalInt (Int.tdiv t.Window 1000) = (scope ++ 32 :: th) ++ 32 :: w := by
    have : ((t.Scope ++ 32 :: decimalInt (Int.tdiv t.Threshold 1000)) ++
        32 :: decimalInt (Int.tdiv t.Window 1000)) ++ [10] = ((scope ++ 32 :: th) ++ 32 :: w) ++ [10] := by
      simpa using htext
    exact List.append_cancel_right this
  have hw : 32 ∉ w := fun hm => by have := parseDecimal_digits w b hb 32 hm; omega
  have hth : 32 ∉ th := fun hm => by have := parseDecimal_digits th a ha 32 hm; omega
  obtain ⟨h2, h3⟩ := last_sep_inj _ _ _ _ 32 (decimalInt_no_space _) hw h1
  obtain ⟨-, h4⟩ := last_sep_inj _ _ _ _ 32 (decimalInt_no_space _) hth h2
  rw [← h3] at hb
  rw [← h4] at ha
  have e1 := parseDecimal_decimalInt _ _ ha
  have e2 := parseDecimal_decimalInt _ _ hb
  unfold Duration.Microseconds at h
  omega

/-- Claim C8, amended: under an operating system whose writes the kernel
handles as the spec describes, registering a Trigger whose threshold in whole
microseconds is greater than its window in whole microseconds fails:
`NewTicker` returns no Ticker and an error. -/
theorem registration_fails_above_window (os : OS) (p : PressureStallInformation) (t : Trigger)
    (hk : ∀ fd text, os.write fd text = kernelTriggerWrite text)
    (hT : InInt64 t.Threshold) (hW : InInt64 t.Window)
    (h : Duration.Microseconds t.Window < Duration.Microseconds t.Threshold) :
    ∃ e, PressureStallInformation.NewTicker os p t = (none, some e) := by
  unfold PressureStallInformation.NewTicker
  cases PressureStallInformation.openPoll os p with
  | error e => exact ⟨e, rfl⟩
  | ok f =>
    simp only [setTrigger, hk]
    cases hw : kernelTriggerWrite (Trigger.String t) with
    | none => exact absurd hw (kernel_rejects_threshold_above_window t hT hW h)
    | some e => exact ⟨e, rfl⟩

/-- Witness of C8, amended: threshold 1s, window 100ms. -/
theorem registration_fails_above_window_witness :
    ∃ e, PressureStallInformation.NewTicker kernelOS ⟨ResourceCPU, ⟨[], none⟩⟩
      ⟨1 * Second, 100 * Millisecond, ScopeSome⟩ = (none, some e) :=
  registration_fails_above_window kernelOS ⟨ResourceCPU, ⟨[], none⟩⟩
    ⟨1 * Second, 100 * Millisecond, ScopeSome⟩ (fun _ _ => rfl) (by decide) (by decide)
    (by decide)

/-- Counterexample to C8 as stated: the threshold 2s + 1ns is greater than the
window 2s, both are written as 2000000 microseconds, and the registration
succeeds. -/
theorem registration_succeeds_above_window :
    (2 * Second : Duration) < 2 * Second + 1 ∧
    PressureStallInformation.NewTicker kernelOS ⟨ResourceCPU, ⟨[], none⟩⟩
      ⟨2 * Second + 1, 2 * Second, ScopeSome⟩ = (some ⟨3⟩, none) := by
  decide

theorem same_text_same_registration (os : OS) (p : PressureStallInformation) (t u : Trigger)
    (h : Trigger.String t = Trigger.String u) :
    PressureStallInformation.NewTicker os p t = PressureStallInformation.NewTicker os p u := by
  unfold PressureStallInformation.NewTicker setTrigger
  rw [h]

/-! ## Parsing a report line back (C2) -/

theorem readMantissa_zero_skip (cs : GoString) (st : Mantissa) (h : st.nd = 0) :
    readMantissa false (48 :: cs) st =
      readMantissa false cs { st with sawdigits := true, dp := st.dp - 1 } := by
  rw [readMantissa]
  simp [h]

theorem readMantissa_digit (c : Nat) (cs : GoString) (st : Mantissa) (hc : 48 ≤ c ∧ c ≤ 57)
    (h : ¬ (c = 48 ∧ st.nd = 0)) :
    readMantissa false (c :: cs) st =
      readMantissa false cs { st with sawdigits := true, nd := st.nd + 1,
                                      mantissa := st.mantissa * 10 + (c - 48) } := by
  have h95 : c ≠ 95 := by omega
  have h46 : c ≠ 46 := by omega
  rw [readMantissa]
  simp only [h95, h46, if_false, hc, and_self, if_true, h]
  rfl

theorem readMantissa_dot (cs : GoString) (st : Mantissa) (h : st.sawdot = false) :
    readMantissa false (46 :: cs) st =
      readMantissa false cs { st with sawdot := true, dp := st.nd } := by
  rw [readMantissa]
  simp [h]

theorem readMantissa_digits (ds rest : GoString) (st : Mantissa)
    (hds : ∀ c ∈ ds, 48 ≤ c ∧ c ≤ 57) (hinv : st.nd = 0 → st.mantissa = 0) :
    ∃ st1, readMantissa false (ds ++ rest) st = readMantissa false rest st1 ∧
      st1.sawdot = st.sawdot ∧ st1.underscores = st.underscores ∧
      (st.sawdigits = true ∨ ds ≠ [] → st1.sawdigits = true) ∧
      (st1.nd = 0 → st1.mantissa = 0) ∧
      parseDecimalLoop ds st.mantissa = some st1.mantissa ∧
      st1.dp - st1.nd = st.dp - st.nd - ds.length := by
  induction ds generalizing st with
  | nil =>
    refine ⟨st, rfl, rfl, rfl, ?_, hinv, rfl, by simp⟩
    intro h
    simpa using h
  | cons c ds ih =>
    have hc := hds c (List.mem_cons_self _ _)
    have hds1 : ∀ x ∈ ds, 48 ≤ x ∧ x ≤ 57 := fun x hx => hds x (List.mem_cons_of_mem _ hx)
    by_cases hskip : c = 48 ∧ st.nd = 0
    · obtain ⟨st1, h1, h2, h3, h4, h5, h6, h7⟩ :=
        ih { st with sawdigits := true, dp := st.dp - 1 } hds1 hinv
      refine ⟨st1, ?_, h2, h3, fun _ => h4 (Or.inl rfl), h5, ?_, ?_⟩
      · rw [List.cons_append, hskip.1, readMantissa_zero_skip _ _ hskip.2]
        exact h1
      · rw [parseDecimalLoop, if_pos hc]
        have hm := hinv hskip.2
        simp only [hm, hskip.1] at h6 ⊢
        simpa using h6
      · simp only [List.length_cons] at h7 ⊢
        push_cast
        omega
    · obtain ⟨st1, h1, h2, h3, h4, h5, h6, h7⟩ :=
        ih { st with sawdigits := true, nd := st.nd + 1,
                     mantissa := st.mantissa * 10 + (c - 48) } hds1 (by simp)
      refine ⟨st1, ?_, h2, h3, fun _ => h4 (Or.inl rfl), h5, ?_, ?_⟩
      · rw [List.cons_append, readMantissa_digit c _ st hc hskip]
        exact h1
      · rw [parseDecimalLoop, if_pos hc]
        exact h6
      · simp only [List.length_cons] at h7 ⊢
        push_cast at h7 ⊢
        omega

theorem readMantissa_hundredths (k : Nat) :
    ∃ st, readMantissa false (hundredths k) ⟨false, false, false, 0, 0, 0⟩ = (st, []) ∧
      st.sawdigits = true ∧ st.underscores = false ∧ st.sawdot = true ∧
      st.mantissa = k ∧ st.dp - st.nd = -2 := by
  obtain ⟨st1, h1, h2, h3, h4, h5, h6, -⟩ :=
    readMantissa_digits (decimalNat (k / 100)) [46, 48 + k % 100 / 10, 48 + k % 10]
      ⟨false, false, false, 0, 0, 0⟩ (fun c hc => decimalNat_digit _ c hc) (fun _ => rfl)
  obtain ⟨st3, g1, g2, g3, g4, -, g6, g7⟩ :=
    readMantissa_digits [48 + k % 100 / 10, 48 + k % 10] []
      { st1 with sawdot := true, dp := st1.nd } (by
        intro c hc
        simp only [List.mem_cons, List.mem_singleton, List.not_mem_nil, or_false] at hc
        rcases hc with rfl | rfl <;> omega) h5
  refine ⟨st3, ?_, g4 (Or.inr (by simp)), ?_, ?_, ?_, ?_⟩
  · unfold hundredths
    rw [h1, readMantissa_dot _ _ h2]
    have : [48 + k % 100 / 10, 48 + k % 10] = [48 + k % 100 / 10, 48 + k % 10] ++ [] := by simp
    rw [this, g1, readMantissa]
  · rw [g3]; exact h3
  · rw [g2]
  · rw [parseDecimalLoop_decimalNat] at h6
    simp only [Option.some.injEq] at h6
    simp only [parseDecimalLoop, ← h6] at g6
    have hd1 : 48 ≤ 48 + k % 100 / 10 ∧ 48 + k % 100 / 10 ≤ 57 := by omega
    have hd2 : 48 ≤ 48 + k % 10 ∧ 48 + k % 10 ≤ 57 := by omega
    simp only [hd1, hd2, and_self, if_true, Option.some.injEq] at g6
    omega
  · simp only [List.length_cons, List.length_nil] at g7
    push_cast at g7
    omega

theorem lower_ne_marker (c : Nat) (h : c ≤ 57) : lower c ≠ 120 ∧ lower c ≠ 101 := by
  unfold lower
  interval_cases c <;> decide

theorem hasHexMarker_false (s : GoString) (h : ∀ c ∈ s, c ≤ 57) : hasHexMarker s = false := by
  unfold hasHexMarker
  split
  · rename_i c0 c1 c2 rest
    have := (lower_ne_marker c1 (h c1 (by simp))).1
    simp [this]
  · rfl

theorem special_digit (c : Nat) (cs : GoString) (hc : 48 ≤ c ∧ c ≤ 57) :
    special (c :: cs) = none := by
  unfold special
  have h1 : ¬ (c = 43 ∨ c = 45 ∨ c = 105 ∨ c = 73) := by omega
  have h2 : ¬ (c = 110 ∨ c = 78) := by omega
  simp only [h1, h2, if_false]

theorem readFloat_plain (c : Nat) (cs : GoString) (st : Mantissa) (hc : 48 ≤ c ∧ c ≤ 57)
    (hhex : hasHexMarker (c :: cs) = false)
    (hm : readMantissa false (c :: cs) ⟨false, false, false, 0, 0, 0⟩ = (st, []))
    (hsd : st.sawdigits = true) (hu : st.underscores = false) (hdot : st.sawdot = true) :
    readFloat (c :: cs) =
      some (⟨st.mantissa, if st.mantissa ≠ 0 then st.dp - st.nd else 0, false, false⟩, []) := by
  have h1 : (if c = 43 ∨ c = 45 then cs else c :: cs) = c :: cs := if_neg (by omega)
  have h2 : c ≠ 45 := by omega
  unfold readFloat
  simp only [h1]
  simp only [hhex, Bool.false_eq_true, if_false, hm, hsd, hu, hdot, readExponentPart,
    not_true_eq_false, if_true, false_and]
  simp [h2]

theorem hundredths_chars (k c : Nat) (h : c ∈ hundredths k) : c = 46 ∨ (48 ≤ c ∧ c ≤ 57) := by
  unfold hundredths at h
  simp only [List.mem_append, List.mem_cons, List.mem_singleton, List.not_mem_nil, or_false] at h
  rcases h with h | h | h | h
  · exact Or.inr (decimalNat_digit _ _ h)
  · exact Or.inl h
  · right; omega
  · right; omega

theorem hundredths_head (k : Nat) :
    ∃ c cs, hundredths k = c :: cs ∧ 48 ≤ c ∧ c ≤ 57 := by
  cases h : decimalNat (k / 100) with
  | nil => exact absurd h (decimalNat_ne_nil _)
  | cons c cs =>
    refine ⟨c, cs ++ [46, 48 + k % 100 / 10, 48 + k % 10], by simp [hundredths, h], ?_⟩
    exact decimalNat_digit (k / 100) c (by simp [h])

theorem readFloat_hundredths (k : Nat) :
    readFloat (hundredths k) = some (⟨k, if k ≠ 0 then -2 else 0, false, false⟩, []) := by
  obtain ⟨st, hm, hsd, hu, hdot, hk, hexp⟩ := readMantissa_hundredths k
  obtain ⟨c, cs, hs, hc⟩ := hundredths_head k
  have hhex : hasHexMarker (hundredths k) = false :=
    hasHexMarker_false _ (fun x hx => by rcases hundredths_chars k x hx with h | h <;> omega)
  rw [hs] at hm hhex ⊢
  rw [readFloat_plain c cs st hc hhex hm hsd hu hdot, hk, hexp]

theorem nearest_samples :
    Float64.nearest false 1 10 = (⟨0x3FB999999999999A⟩, false) ∧
    Float64.nearest true 5 4 = (⟨0xBFF4000000000000⟩, false) ∧
    Float64.nearest false 9999 100 = (⟨0x4058FF5C28F5C28F⟩, false) ∧
    Float64.nearest false 10000 100 = (⟨0x4059000000000000⟩, false) ∧
    Float64.nearest false (2 ^ 53 + 1) 1 = (⟨0x4340000000000000⟩, false) ∧
    Float64.nearest false (2 ^ 53 + 3) 1 = (⟨0x4340000000000002⟩, false) := by
  decide

theorem log2Fuel_le (fuel : Nat) : ∀ (n b : Nat), n < 2 ^ (b + 1) → log2Fuel fuel n ≤ b := by
  induction fuel with
  | zero => intro n b _; simp [log2Fuel]
  | succ fuel ih =>
    intro n b h
    unfold log2Fuel
    split_ifs with h2
    · cases b with
      | zero => simp at h; omega
      | succ b =>
        have : n / 2 < 2 ^ (b + 1) := by
          rw [Nat.div_lt_iff_lt_mul (by norm_num)]
          calc n < 2 ^ (b + 1 + 1) := h
            _ = 2 ^ (b + 1) * 2 := by ring
        have := ih (n / 2) b this
        omega
    · omega

theorem floorLog2_le (n d b : Nat) (h : n < 2 ^ (b + 1)) : floorLog2 n d ≤ b := by
  have h1 : log2 n ≤ b := log2Fuel_le n n b h
  unfold floorLog2
  simp only []
  split_ifs <;> omega

theorem nearest_no_overflow (neg : Bool) (n d : Nat) (h : n < 2 ^ 64) :
    (Float64.nearest neg n d).2 = false := by
  have hl := floorLog2_le n d 63 h
  unfold Float64.nearest
  by_cases h0 : n = 0
  · simp [h0]
  · simp only [h0, if_false]
    have he : ¬ ((if roundHalfEven (scalePow2 n d (max (floorLog2 n d - 52) (-1074))).1
        (scalePow2 n d (max (floorLog2 n d - 52) (-1074))).2 = 2 ^ 53
        then max (floorLog2 n d - 52) (-1074) + 1 else max (floorLog2 n d - 52) (-1074)) > 971) := by
      split_ifs <;> omega
    rw [if_neg he]
    split_ifs <;> rfl

theorem ParseFloat_hundredths (k : Nat) (h : k ≤ 10000) :
    ParseFloat (hundredths k) = ((Float64.nearest false k 100).1, none) := by
  obtain ⟨c, cs, hs, hc⟩ := hundredths_head k
  have hsp : special (hundredths k) = none := by rw [hs]; exact special_digit c cs hc
  have hk : k < 2 ^ 64 := lt_of_le_of_lt h (by norm_num)
  unfold ParseFloat
  rw [hsp, readFloat_hundredths k]
  simp only [ne_eq, not_true_eq_false, if_false]
  have hconv : FloatLit.toFloat64 ⟨k, if k ≠ 0 then -2 else 0, false, false⟩ =
      Float64.nearest false k 100 := by
    unfold FloatLit.toFloat64
    by_cases h0 : k = 0
    · subst h0
      simp [Float64.nearest]
    · simp [h0]
  rw [hconv, nearest_no_overflow false k 100 hk]
  simp

theorem atoiFastLoop_snoc (xs : GoString) (c : Nat) (acc : Int) :
    atoiFastLoop (xs ++ [c]) acc = (atoiFastLoop xs acc).bind (fun m => atoiFastLoop [c] m) := by
  induction xs generalizing acc with
  | nil => simp [atoiFastLoop]
  | cons x xs ih =>
    rw [List.cons_append]
    by_cases hx : (x + 256 - 48) % 256 > 9
    · rw [atoiFastLoop]
      simp only [hx, if_true]
      conv_rhs => rw [atoiFastLoop]
      simp only [hx, if_true]
      rfl
    · rw [atoiFastLoop]
      simp only [hx, if_false]
      rw [ih]
      conv_rhs => rw [atoiFastLoop]
      simp only [hx, if_false]

theorem atoiFastLoop_decimalNat (n : Nat) : atoiFastLoop (decimalNat n) 0 = some (n : Int) := by
  induction n using Nat.strong_induction_on with
  | _ n ih =>
    by_cases h : n < 10
    · rw [decimalNat_of_lt_ten n h]
      have h1 : (48 + n + 256 - 48) % 256 = n := by omega
      have h2 : ¬ n > 9 := by omega
      simp only [atoiFastLoop, h1, h2, if_false]
      simp
    · have h10 : 10 ≤ n := by omega
      rw [decimalNat_step n h10, atoiFastLoop_snoc, ih (n / 10) (by omega)]
      have h1 : (48 + n % 10 + 256 - 48) % 256 = n % 10 := by omega
      have h2 : ¬ n % 10 > 9 := by omega
      simp only [Option.some_bind, atoiFastLoop, h1, h2, if_false, Option.some.injEq]
      omega

theorem parseUintLoop_snoc (xs : GoString) (c acc : Nat) :
    parseUintLoop (xs ++ [c]) acc =
      match parseUintLoop xs acc with
      | (m, none) => parseUintLoop [c] m
      | r => r := by
  induction xs generalizing acc with
  | nil => simp [parseUintLoop]
  | cons x xs ih =>
    rw [List.cons_append]
    conv_lhs => rw [parseUintLoop]
    conv_rhs => rw [parseUintLoop]
    simp only []
    split_ifs <;> first | rfl | exact ih _

theorem parseUintLoop_decimalNat (n : Nat) (h : n < 2 ^ 64) :
    parseUintLoop (decimalNat n) 0 = (n, none) := by
  induction n using Nat.strong_induction_on with
  | _ n ih =>
    have key : ∀ m d : Nat, d < 10 → m * 10 + d < 2 ^ 64 →
        parseUintLoop [48 + d] m = (m * 10 + d, none) := by
      intro m d hd hm
      have c1 : 48 ≤ 48 + d ∧ 48 + d ≤ 57 := by omega
      have c2 : 48 + d - 48 = d := by omega
      have c3 : ¬ d ≥ 10 := by omega
      have c4 : ¬ m ≥ (2 ^ 64 - 1) / 10 + 1 := by omega
      have c5 : m * 10 % 2 ^ 64 = m * 10 := by omega
      have c6 : (m * 10 + d) % 2 ^ 64 = m * 10 + d := by omega
      have c7 : ¬ (m * 10 + d < m * 10 ∨ m * 10 + d > 2 ^ 64 - 1) := by omega
      simp only [parseUintLoop, c1, and_self, true_or, if_true, c2, c3, if_false, c4, c5, c6, c7]
    by_cases h10 : n < 10
    · rw [decimalNat_of_lt_ten n h10]
      have := key 0 n h10 (by omega)
      simpa using this
    · have h10 : 10 ≤ n := by omega
      rw [decimalNat_step n h10, parseUintLoop_snoc, ih (n / 10) (by omega) (by omega)]
      simp only []
      rw [key (n / 10) (n % 10) (by omega) (by omega)]
      congr 1
      omega

theorem Atoi_decimalNat (n : Nat) (h : n < 2 ^ 63) : Atoi (decimalNat n) = ((n : Int), none) := by
  cases hd : decimalNat n with
  | nil => exact absurd hd (decimalNat_ne_nil n)
  | cons c cs =>
    have hc : 48 ≤ c ∧ c ≤ 57 := decimalNat_digit n c (by simp [hd])
    have hsign : ¬ (c = 45 ∨ c = 43) := by omega
    have hsign2 : ¬ (c = 43 ∨ c = 45) := by omega
    have h45 : c ≠ 45 := by omega
    unfold Atoi
    split_ifs with hlen
    · simp only [hsign, if_false]
      rw [← hd, atoiFastLoop_decimalNat]
      simp [hd, h45]
    · unfold ParseInt
      simp only [hsign2, if_false, ParseUint]
      rw [if_neg (by simp), ← hd, parseUintLoop_decimalNat n (by omega)]
      have hcut : ¬ ((n : Nat) ≥ 2 ^ (intSize - 1)) := by simp only [intSize]; omega
      simp [h45, hcut]

theorem hundredths_no_sep (k sep : Nat) (h : sep = 32 ∨ sep = 61) : sep ∉ hundredths k := by
  intro hm
  rcases hundredths_chars k sep hm with h1 | h1 <;> omega

theorem decimalNat_no_sep (n sep : Nat) (h : sep = 32 ∨ sep = 61) : sep ∉ decimalNat n := by
  intro hm
  have := decimalNat_digit n sep hm
  omega

theorem Split_key_value (key value : GoString) (hk : 61 ∉ key) (hv : 61 ∉ value) :
    (Split (key ++ 61 :: value) 61).get? 1 = some value := by
  rw [Split_append_sep, Split_of_not_mem key 61 hk, Split_of_not_mem value 61 hv]
  rfl

theorem Split_five (f0 f1 f2 f3 f4 : GoString) (h0 : 32 ∉ f0) (h1 : 32 ∉ f1) (h2 : 32 ∉ f2)
    (h3 : 32 ∉ f3) (h4 : 32 ∉ f4) :
    Split (f0 ++ 32 :: (f1 ++ 32 :: (f2 ++ 32 :: (f3 ++ 32 :: f4)))) 32 = [f0, f1, f2, f3, f4] := by
  rw [Split_append_sep, Split_append_sep, Split_append_sep, Split_append_sep,
    Split_of_not_mem f0 32 h0, Split_of_not_mem f1 32 h1, Split_of_not_mem f2 32 h2,
    Split_of_not_mem f3 32 h3, Split_of_not_mem f4 32 h4]
  rfl

theorem reportLine_fields (scope : Scope) (avg10 avg60 avg300 total : Nat) :
    reportLine scope avg10 avg60 avg300 total =
      scope ++ 32 :: ((str "avg10" ++ 61 :: hundredths avg10) ++
        32 :: ((str "avg60" ++ 61 :: hundredths avg60) ++
        32 :: ((str "avg300" ++ 61 :: hundredths avg300) ++
        32 :: (str "total" ++ 61 :: decimalNat total)))) := by
  have e1 : str " avg10=" = 32 :: (str "avg10" ++ [61]) := by decide
  have e2 : str " avg60=" = 32 :: (str "avg60" ++ [61]) := by decide
  have e3 : str " avg300=" = 32 :: (str "avg300" ++ [61]) := by decide
  have e4 : str " total=" = 32 :: (str "total" ++ [61]) := by decide
  unfold reportLine
  rw [e1, e2, e3, e4]
  simp

/-! ## The rounding of `Float64.nearest`

`Float64.nearest` rounds `n/d` to a multiple of `2^e0`, where `e0 + 52` is
`floorLog2 n d` (or `e0 = -1074` in the subnormal range), with `roundHalfEven`.
The lemmas below state what these two functions compute. -/

/-- The result of `roundHalfEven a b` is within one half of `a / b`. -/
theorem roundHalfEven_error (a b : Nat) (hb : 0 < b) :
    2 * (roundHalfEven a b * b) ≤ 2 * a + b ∧ 2 * a ≤ 2 * (roundHalfEven a b * b) + b := by
  have h1 := Nat.div_add_mod a b
  have h2 := Nat.mod_lt a hb
  unfold roundHalfEven
  simp only []
  generalize a / b = q at h1 ⊢
  generalize a % b = r at h1 h2 ⊢
  subst h1
  split_ifs <;> constructor <;> nlinarith

/-- On a tie `roundHalfEven` returns an even number. -/
theorem roundHalfEven_tie_even (a b : Nat) (h : 2 * (a % b) = b) :
    roundHalfEven a b % 2 = 0 := by
  unfold roundHalfEven
  simp only []
  split_ifs <;> omega

theorem log2Fuel_spec (fuel : Nat) : ∀ n : Nat, 0 < n → n ≤ fuel →
    2 ^ log2Fuel fuel n ≤ n ∧ n < 2 ^ (log2Fuel fuel n + 1) := by
  induction fuel with
  | zero => intro n h0 h; omega
  | succ fuel ih =>
    intro n h0 h
    unfold log2Fuel
    split_ifs with h2
    · obtain ⟨l1, l2⟩ := ih (n / 2) (by omega) (by omega)
      rw [pow_succ, pow_succ]
      rw [pow_succ] at l2
      constructor <;> omega
    · simp
      omega

/-- The bracket of `log2`: `2^(log2 n) ≤ n < 2^(log2 n + 1)`. -/
theorem log2_spec (n : Nat) (h : 0 < n) : 2 ^ log2 n ≤ n ∧ n < 2 ^ (log2 n + 1) :=
  log2Fuel_spec n n h (le_refl n)

theorem scalePow2_nonneg (n d k : Nat) : scalePow2 n d (k : Int) = (n, d * 2 ^ k) := by
  simp [scalePow2]

theorem scalePow2_neg (n d k : Nat) : scalePow2 n d (-((k : Int) + 1)) = (n * 2 ^ (k + 1), d) := by
  have h : ¬ (0 : Int) ≤ -((k : Int) + 1) := by omega
  have h2 : (-(-((k : Int) + 1))).toNat = k + 1 := by omega
  simp only [scalePow2, h, if_false, h2]

/-- The bracket of `floorLog2`: with `E = floorLog2 n d`, `1 ≤ n / (d * 2^E) < 2`. -/
theorem floorLog2_spec (n d : Nat) (hn : 0 < n) (hd : 0 < d) :
    (scalePow2 n d (floorLog2 n d)).2 ≤ (scalePow2 n d (floorLog2 n d)).1 ∧
    (scalePow2 n d (floorLog2 n d)).1 < 2 * (scalePow2 n d (floorLog2 n d)).2 := by
  obtain ⟨hn1, hn2⟩ := log2_spec n hn
  obtain ⟨hd1, hd2⟩ := log2_spec d hd
  unfold floorLog2
  simp only []
  generalize log2 n = ln at hn1 hn2 ⊢
  generalize log2 d = ld at hd1 hd2 ⊢
  rw [pow_succ] at hn2 hd2
  rcases Nat.lt_or_ge ln ld with hlt | hle
  · obtain ⟨k, rfl⟩ : ∃ k, ld = ln + (k + 1) := ⟨ld - ln - 1, by omega⟩
    have hl : ((ln : Nat) : Int) - ((ln + (k + 1) : Nat) : Int) = -((k : Int) + 1) := by
      push_cast; omega
    have hl1 : -((k : Int) + 1) - 1 = -(((k + 1 : Nat) : Int) + 1) := by push_cast; omega
    rw [hl, scalePow2_neg]
    rw [pow_add] at hd1 hd2
    have hQ : 0 < 2 ^ (k + 1) := Nat.pow_pos (by norm_num)
    have hP : 0 < 2 ^ ln := Nat.pow_pos (by norm_num)
    by_cases ht : d ≤ n * 2 ^ (k + 1)
    · rw [if_pos ht, scalePow2_neg]
      exact ⟨ht, by nlinarith⟩
    · rw [if_neg ht, hl1, scalePow2_neg]
      have e : 2 ^ (k + 1 + 1) = 2 ^ (k + 1) * 2 := pow_succ 2 (k + 1)
      simp only [e]
      constructor <;> nlinarith
  · obtain ⟨k, rfl⟩ := Nat.exists_eq_add_of_le hle
    have hl : ((ld + k : Nat) : Int) - (ld : Int) = (k : Int) := by omega
    rw [hl, scalePow2_nonneg]
    rw [pow_add] at hn1 hn2
    have hQ : 0 < 2 ^ k := Nat.pow_pos (by norm_num)
    have hP : 0 < 2 ^ ld := Nat.pow_pos (by norm_num)
    by_cases ht : d * 2 ^ k ≤ n
    · rw [if_pos ht, scalePow2_nonneg]
      exact ⟨ht, by nlinarith⟩
    · rw [if_neg ht]
      cases k with
      | zero =>
        have e : ((0 : Nat) : Int) - 1 = -(((0 : Nat) : Int) + 1) := by omega
        rw [e, scalePow2_neg]
        simp only [pow_zero, mul_one, zero_add, pow_one] at hn1 hn2 ht ⊢
        constructor <;> omega
      | succ j =>
        have e : ((j + 1 : Nat) : Int) - 1 = (j : Int) := by omega
        rw [e, scalePow2_nonneg]
        rw [pow_succ] at ht hn1 hn2
        have hJ : 0 < 2 ^ j := Nat.pow_pos (by norm_num)
        simp only []
        constructor <;> nlinarith

/-! ## The value of a `float64` and the nearest one to a fraction -/

theorem pack_bits (be frac : Nat) : (Float64.pack false be frac).bits = be * 2 ^ 52 + frac := by
  simp [Float64.pack]

theorem pack_fields (be frac : Nat) (hbe : be ≤ 2046) (hf : frac < 2 ^ 52) :
    (Float64.pack false be frac).bits < 2 ^ 63 ∧
    (Float64.pack false be frac).bits / 2 ^ 52 % 2048 = be ∧
    (Float64.pack false be frac).bits % 2 ^ 52 = frac ∧
    (Float64.pack false be frac).bits / 2 ^ 63 % 2 = 0 := by
  rw [pack_bits]
  refine ⟨by omega, by omega, by omega, by omega⟩

theorem pack_finite (be frac : Nat) (hbe : be ≤ 2046) (hf : frac < 2 ^ 52) :
    (Float64.pack false be frac).IsFinite := by
  obtain ⟨h1, h2, -, -⟩ := pack_fields be frac hbe hf
  exact ⟨by omega, by omega⟩

theorem pack_value (be frac : Nat) (hbe : be ≤ 2046) (hf : frac < 2 ^ 52) :
    (Float64.pack false be frac).value =
      ((if be = 0 then frac else (2 ^ 52 + frac) * 2 ^ (be - 1) : Nat) : Int) := by
  obtain ⟨-, h2, h3, h4⟩ := pack_fields be frac hbe hf
  unfold Float64.value Float64.magnitude
  rw [h2, h3, h4]
  simp

theorem value_of_nonneg (x : Float64) (h : x.bits < 2 ^ 63) : x.value = (x.magnitude : Int) := by
  unfold Float64.value
  rw [if_neg (by omega)]

theorem magnitude_cases (x : Float64) :
    x.magnitude < 2 ^ 52 ∨
    ∃ M t, 2 ^ 52 ≤ M ∧ M < 2 ^ 53 ∧ x.magnitude = M * 2 ^ t := by
  unfold Float64.magnitude
  split_ifs with h
  · left; omega
  · right
    exact ⟨2 ^ 52 + x.bits % 2 ^ 52, x.bits / 2 ^ 52 % 2048 - 1, by omega, by omega, rfl⟩

theorem magnitude_multiple (x : Float64) (s : Nat) (h : 2 ^ (52 + s) ≤ x.magnitude) :
    ∃ t, x.magnitude = t * 2 ^ s := by
  have hs : 0 < 2 ^ s := Nat.pow_pos (by norm_num)
  rw [pow_add] at h
  rcases magnitude_cases x with hlt | ⟨M, t, hM1, hM2, hx⟩
  · nlinarith
  · rw [hx] at h ⊢
    rcases Nat.lt_or_ge t s with hts | hts
    · exfalso
      obtain ⟨j, rfl⟩ : ∃ j, s = t + (j + 1) := ⟨s - t - 1, by omega⟩
      have e : 2 ^ (t + (j + 1)) = 2 ^ t * (2 ^ j * 2) := by rw [pow_add, pow_succ]
      rw [e] at h
      have ht : 0 < 2 ^ t := Nat.pow_pos (by norm_num)
      have hj : 0 < 2 ^ j := Nat.pow_pos (by norm_num)
      generalize 2 ^ t = A at h ht
      generalize 2 ^ j = B at h hj
      have h1 : M * A < 2 ^ 53 * A := Nat.mul_lt_mul_of_pos_right hM2 ht
      have h2 : 2 ^ 53 * A * 1 ≤ 2 ^ 53 * A * B := Nat.mul_le_mul_left _ hj
      have h3 : 2 ^ 52 * (A * (B * 2)) = 2 ^ 53 * A * B := by ring
      omega
    · obtain ⟨j, rfl⟩ := Nat.exists_eq_add_of_le hts
      exact ⟨M * 2 ^ j, by rw [pow_add]; ring⟩

/-! ## The conversion returns the nearest `float64` -/


theorem scalePow2_den_pos (n d : Nat) (e : Int) (hd : 0 < d) : 0 < (scalePow2 n d e).2 := by
  unfold scalePow2
  split_ifs
  · exact Nat.mul_pos hd (Nat.pow_pos (by norm_num))
  · exact hd

theorem scalePow2_cross (n d : Nat) (e : Int) (he : -1074 ≤ e) :
    (scalePow2 n d e).1 * (d * 2 ^ (e + 1074).toNat) = (scalePow2 n d e).2 * (n * 2 ^ 1074) := by
  rcases Int.lt_or_le e 0 with hneg | hpos
  · obtain ⟨j, rfl⟩ : ∃ j : Nat, e = -((j : Int) + 1) := ⟨(-e - 1).toNat, by omega⟩
    rw [scalePow2_neg]
    obtain ⟨u, hu⟩ : ∃ u : Nat, u + (j + 1) = 1074 := ⟨1074 - (j + 1), by omega⟩
    have h1 : (-((j : Int) + 1) + 1074).toNat = u := by omega
    rw [h1, ← hu, pow_add]
    ring
  · obtain ⟨j, rfl⟩ : ∃ j : Nat, e = (j : Int) := ⟨e.toNat, by omega⟩
    rw [scalePow2_nonneg]
    have h1 : ((j : Int) + 1074).toNat = j + 1074 := by omega
    rw [h1, pow_add]
    ring

theorem cross_round (a b c N m : Nat) (hb : 0 < b) (hcross : a * c = b * N)
    (h1 : 2 * (m * b) ≤ 2 * a + b) (h2 : 2 * a ≤ 2 * (m * b) + b) :
    2 * (c * m) ≤ 2 * N + c ∧ 2 * N ≤ 2 * (c * m) + c := by
  constructor
  · apply Nat.le_of_mul_le_mul_left _ hb
    calc b * (2 * (c * m)) = (2 * (m * b)) * c := by ring
      _ ≤ (2 * a + b) * c := Nat.mul_le_mul_right c h1
      _ = 2 * (a * c) + b * c := by ring
      _ = b * (2 * N + c) := by rw [hcross]; ring
  · apply Nat.le_of_mul_le_mul_left _ hb
    calc b * (2 * N) = 2 * (a * c) := by rw [hcross]; ring
      _ = (2 * a) * c := by ring
      _ ≤ (2 * (m * b) + b) * c := Nat.mul_le_mul_right c h2
      _ = b * (2 * (c * m) + c) := by ring

theorem cross_binade (a b C N : Nat) (hb : 0 < b) (hcross : a * C = b * N)
    (h1 : b ≤ a) (h2 : a < 2 * b) (hC : 0 < C) : C ≤ N ∧ N < 2 * C := by
  constructor
  · apply Nat.le_of_mul_le_mul_left _ hb
    calc b * C ≤ a * C := Nat.mul_le_mul_right C h1
      _ = b * N := hcross
  · apply Nat.lt_of_mul_lt_mul_left (a := b)
    calc b * N = a * C := hcross.symm
      _ < 2 * b * C := Nat.mul_lt_mul_of_pos_right h2 hC
      _ = b * (2 * C) := by ring

theorem round_in_binade (c N m : Nat) (hc : 0 < c) (h1 : c * 2 ^ 52 ≤ N)
    (h2 : N < 2 * (c * 2 ^ 52)) (r1 : 2 * (c * m) ≤ 2 * N + c) (r2 : 2 * N ≤ 2 * (c * m) + c) :
    2 ^ 52 ≤ m ∧ m ≤ 2 ^ 53 := by
  constructor
  · by_contra hlt
    have hm : m + 1 ≤ 2 ^ 52 := by omega
    have : c * (m + 1) ≤ c * 2 ^ 52 := Nat.mul_le_mul_left c hm
    have e : c * (m + 1) = c * m + c := by ring
    omega
  · by_contra hgt
    have hm : 2 ^ 53 + 1 ≤ m := by omega
    have : c * (2 ^ 53 + 1) ≤ c * m := Nat.mul_le_mul_left c hm
    have e : c * (2 ^ 53 + 1) = 2 * (c * 2 ^ 52) + c := by ring
    omega

theorem nearest_multiple (c N m t : Nat) (hc : 0 < c) (htm : t ≠ m)
    (r1 : 2 * (c * m) < 2 * N + c) (r2 : 2 * N < 2 * (c * m) + c) :
    (((c * m : Nat) : Int) - (N : Int)).natAbs < (((c * t : Nat) : Int) - (N : Int)).natAbs := by
  rcases Nat.lt_or_gt_of_ne htm with h | h
  · have h1 : c * (t + 1) ≤ c * m := Nat.mul_le_mul_left c h
    have e : c * (t + 1) = c * t + c := by ring
    omega
  · have h1 : c * (m + 1) ≤ c * t := Nat.mul_le_mul_left c h
    have e : c * (m + 1) = c * m + c := by ring
    omega


theorem nearest_normal (n d : Nat) (hn : 0 < n) (hd : 0 < d)
    (hE1 : -1022 ≤ floorLog2 n d) (hE2 : floorLog2 n d ≤ 1022) :
    ∃ m s : Nat, (s : Int) = floorLog2 n d + 1022 ∧ 2 ^ 52 ≤ m ∧ m ≤ 2 ^ 53 ∧
      d * 2 ^ s * 2 ^ 52 ≤ n * 2 ^ 1074 ∧
      2 * (d * 2 ^ s * m) ≤ 2 * (n * 2 ^ 1074) + d * 2 ^ s ∧
      2 * (n * 2 ^ 1074) ≤ 2 * (d * 2 ^ s * m) + d * 2 ^ s ∧
      (Float64.nearest false n d).1.bits < 2 ^ 63 ∧
      (Float64.nearest false n d).1.IsFinite ∧
      (Float64.nearest false n d).1.magnitude = m * 2 ^ s := by
  obtain ⟨hb1, hb2⟩ := floorLog2_spec n d hn hd
  have hcE := scalePow2_cross n d (floorLog2 n d) (by omega)
  have hc0 := scalePow2_cross n d (floorLog2 n d - 52) (by omega)
  have hbE := scalePow2_den_pos n d (floorLog2 n d) hd
  have hb0 := scalePow2_den_pos n d (floorLog2 n d - 52) hd
  have hr := roundHalfEven_error (scalePow2 n d (floorLog2 n d - 52)).1
    (scalePow2 n d (floorLog2 n d - 52)).2 hb0
  have hmax : max (floorLog2 n d - 52) (-1074) = floorLog2 n d - 52 := max_eq_left (by omega)
  have hn0 : n ≠ 0 := by omega
  unfold Float64.nearest
  simp only [hn0, if_false, hmax]
  generalize floorLog2 n d = E at *
  obtain ⟨s, hs⟩ : ∃ s : Nat, (s : Int) = E + 1022 := ⟨(E + 1022).toNat, by omega⟩
  have hs0 : (E - 52 + 1074).toNat = s := by omega
  have hsE : (E + 1074).toNat = s + 52 := by omega
  rw [hs0] at hc0
  rw [hsE, pow_add] at hcE
  generalize (scalePow2 n d E).1 = a1 at *
  generalize (scalePow2 n d E).2 = b1 at *
  generalize (scalePow2 n d (E - 52)).1 = a at *
  generalize (scalePow2 n d (E - 52)).2 = b at *
  generalize roundHalfEven a b = m at *
  have hS : 0 < 2 ^ s := Nat.pow_pos (by norm_num)
  have hc : 0 < d * 2 ^ s := Nat.mul_pos hd hS
  have hcE2 : a1 * (d * 2 ^ s * 2 ^ 52) = b1 * (n * 2 ^ 1074) := by rw [← hcE]; ring
  obtain ⟨k1, k2⟩ := cross_binade a1 b1 (d * 2 ^ s * 2 ^ 52) (n * 2 ^ 1074) hbE hcE2 hb1 hb2
    (Nat.mul_pos hc (Nat.pow_pos (by norm_num)))
  obtain ⟨r1, r2⟩ := cross_round a b (d * 2 ^ s) (n * 2 ^ 1074) m hb0 hc0 hr.1 hr.2
  obtain ⟨m1, m2⟩ := round_in_binade (d * 2 ^ s) (n * 2 ^ 1074) m hc k1 k2 r1 r2
  refine ⟨m, s, hs, m1, m2, k1, r1, r2, ?_⟩
  by_cases hm : m = 2 ^ 53
  · have he : ¬ (E - 52 + 1 > 971) := by omega
    simp only [hm, if_true, he, if_false, lt_irrefl]
    have hbe : (E - 52 + 1 + 1075).toNat = s + 2 := by omega
    rw [hbe, Nat.sub_self]
    obtain ⟨f1, f2, f3, f4⟩ := pack_fields (s + 2) 0 (by omega) (by norm_num)
    refine ⟨f1, pack_finite (s + 2) 0 (by omega) (by norm_num), ?_⟩
    unfold Float64.magnitude
    rw [f2, f3, if_neg (by omega)]
    have : s + 2 - 1 = s + 1 := by omega
    rw [this, pow_succ]
    ring
  · have he : ¬ (E - 52 > 971) := by omega
    have hlt : ¬ (m < 2 ^ 52) := by omega
    simp only [hm, if_false, he, hlt]
    have hbe : (E - 52 + 1075).toNat = s + 1 := by omega
    rw [hbe]
    obtain ⟨f1, f2, f3, f4⟩ := pack_fields (s + 1) (m - 2 ^ 52) (by omega) (by omega)
    refine ⟨f1, pack_finite (s + 1) (m - 2 ^ 52) (by omega) (by omega), ?_⟩
    unfold Float64.magnitude
    rw [f2, f3, if_neg (by omega)]
    have e1 : s + 1 - 1 = s := by omega
    have e2 : 2 ^ 52 + (m - 2 ^ 52) = m := by omega
    rw [e1, e2]

/-! ## The nearest `float64` is unique -/


theorem significand_scale_inj (f g a t : Nat) (hf : f < 2 ^ 52) (hg : g < 2 ^ 52)
    (he : (2 ^ 52 + f) * 2 ^ a = (2 ^ 52 + g) * 2 ^ (a + t)) : t = 0 ∧ f = g := by
  have ha : 0 < 2 ^ a := Nat.pow_pos (by norm_num)
  have he2 : 2 ^ a * (2 ^ 52 + f) = 2 ^ a * ((2 ^ 52 + g) * 2 ^ t) := by
    rw [pow_add] at he
    calc 2 ^ a * (2 ^ 52 + f) = (2 ^ 52 + f) * 2 ^ a := by ring
      _ = (2 ^ 52 + g) * (2 ^ a * 2 ^ t) := he
      _ = 2 ^ a * ((2 ^ 52 + g) * 2 ^ t) := by ring
  have he3 := Nat.eq_of_mul_eq_mul_left ha he2
  cases t with
  | zero => simp at he3; exact ⟨rfl, by omega⟩
  | succ t =>
    exfalso
    have e1 : 2 ^ (t + 1) = 2 ^ t * 2 := pow_succ 2 t
    rw [e1] at he3
    have ht : 0 < 2 ^ t := Nat.pow_pos (by norm_num)
    generalize 2 ^ t = T at he3 ht
    have h1 : (2 ^ 52 + g) * 1 ≤ (2 ^ 52 + g) * T := Nat.mul_le_mul_left _ ht
    have e : (2 ^ 52 + g) * (T * 2) = 2 * ((2 ^ 52 + g) * T) := by ring
    omega

theorem magnitude_injective (x y : Float64) (hx : x.bits < 2 ^ 63) (hy : y.bits < 2 ^ 63)
    (fx : x.IsFinite) (fy : y.IsFinite) (h : x.magnitude = y.magnitude) : x = y := by
  obtain ⟨bx⟩ := x
  obtain ⟨by1⟩ := y
  simp only [Float64.magnitude, Float64.IsFinite] at *
  have key := significand_scale_inj
  have hfx : bx % 2 ^ 52 < 2 ^ 52 := Nat.mod_lt _ (by norm_num)
  have hfy : by1 % 2 ^ 52 < 2 ^ 52 := Nat.mod_lt _ (by norm_num)
  congr 1
  by_cases ex : bx / 2 ^ 52 % 2048 = 0 <;> by_cases ey : by1 / 2 ^ 52 % 2048 = 0
  · simp only [ex, ey, if_true] at h
    omega
  · simp only [ex, ey, if_true, if_false] at h
    exfalso
    have hp : 0 < 2 ^ (by1 / 2 ^ 52 % 2048 - 1) := Nat.pow_pos (by norm_num)
    have : (2 ^ 52 + by1 % 2 ^ 52) * 1 ≤ (2 ^ 52 + by1 % 2 ^ 52) * 2 ^ (by1 / 2 ^ 52 % 2048 - 1) :=
      Nat.mul_le_mul_left _ hp
    omega
  · simp only [ex, ey, if_true, if_false] at h
    exfalso
    have hp : 0 < 2 ^ (bx / 2 ^ 52 % 2048 - 1) := Nat.pow_pos (by norm_num)
    have : (2 ^ 52 + bx % 2 ^ 52) * 1 ≤ (2 ^ 52 + bx % 2 ^ 52) * 2 ^ (bx / 2 ^ 52 % 2048 - 1) :=
      Nat.mul_le_mul_left _ hp
    omega
  · simp only [ex, ey, if_false] at h
    rcases Nat.le_total (bx / 2 ^ 52 % 2048 - 1) (by1 / 2 ^ 52 % 2048 - 1) with hle | hle
    · obtain ⟨t, ht⟩ := Nat.exists_eq_add_of_le hle
      rw [ht] at h
      obtain ⟨t0, hfg⟩ := key _ _ _ _ hfx hfy h
      omega
    · obtain ⟨t, ht⟩ := Nat.exists_eq_add_of_le hle
      rw [ht] at h
      obtain ⟨t0, hfg⟩ := key _ _ _ _ hfy hfx h.symm
      omega

theorem IsNearest_unique (x y : Float64) (n d : Nat) (hx : x.bits < 2 ^ 63)
    (hy : y.bits < 2 ^ 63) (nx : x.IsNearest n d) (ny : y.IsNearest n d) : x = y := by
  have hv : x.value = y.value := by
    by_contra hne
    have h1 := ny.2 x nx.1 hne
    have h2 := nx.2 y ny.1 (fun h => hne h.symm)
    omega
  rw [value_of_nonneg x hx, value_of_nonneg y hy] at hv
  exact magnitude_injective x y hx hy nx.1 ny.1 (by exact_mod_cast hv)

/-! ## Two-decimal percentages -/


theorem floorLog2_ge (n d b : Nat) (hd : d < 2 ^ (b + 1)) : -((b : Int) + 1) ≤ floorLog2 n d := by
  have h1 : log2 d ≤ b := log2Fuel_le d d b hd
  unfold floorLog2
  simp only []
  split_ifs <;> omega

theorem hundredths_no_tie (k m s : Nat) (hs : s ≤ 1072) :
    2 * (100 * 2 ^ s * m) ≠ 2 * (k * 2 ^ 1074) + 100 * 2 ^ s ∧
    2 * (k * 2 ^ 1074) ≠ 2 * (100 * 2 ^ s * m) + 100 * 2 ^ s := by
  obtain ⟨u, hu⟩ : ∃ u, s + (u + 2) = 1074 := ⟨1072 - s, by omega⟩
  have e : (2 : Nat) ^ 1074 = 2 ^ s * (2 ^ u * 4) := by
    rw [← hu, pow_add, pow_add]; norm_num
  have hS : 0 < 2 ^ s := Nat.pow_pos (by norm_num)
  rw [e]
  generalize 2 ^ s = S at hS
  generalize 2 ^ u = Q
  constructor
  · intro h
    have h2 : S * (200 * m) = S * (8 * (k * Q) + 100) := by
      calc S * (200 * m) = 2 * (100 * S * m) := by ring
        _ = 2 * (k * (S * (Q * 4))) + 100 * S := h
        _ = S * (8 * (k * Q) + 100) := by ring
    have h3 := Nat.eq_of_mul_eq_mul_left hS h2
    omega
  · intro h
    have h2 : S * (8 * (k * Q)) = S * (200 * m + 100) := by
      calc S * (8 * (k * Q)) = 2 * (k * (S * (Q * 4))) := by ring
        _ = 2 * (100 * S * m) + 100 * S := h
        _ = S * (200 * m + 100) := by ring
    have h3 := Nat.eq_of_mul_eq_mul_left hS h2
    omega

theorem distance_of_magnitude (y : Float64) (n d V : Nat) (hy : y.bits / 2 ^ 63 % 2 ≠ 1)
    (hV : y.magnitude = V) :
    y.distance n d = (((d * V : Nat) : Int) - ((n * 2 ^ 1074 : Nat) : Int)).natAbs := by
  unfold Float64.distance Float64.value
  rw [if_neg hy, hV]
  simp only [Nat.cast_mul, Nat.cast_pow, Nat.cast_ofNat]

theorem distance_of_negative (y : Float64) (n d : Nat) (hy : y.bits / 2 ^ 63 % 2 = 1) :
    y.distance n d = d * y.magnitude + n * 2 ^ 1074 := by
  unfold Float64.distance Float64.value
  rw [if_pos hy]
  have : (d : Int) * -(y.magnitude : Int) - (n : Int) * 2 ^ 1074 =
      -(((d * y.magnitude + n * 2 ^ 1074 : Nat)) : Int) := by
    simp only [Nat.cast_add, Nat.cast_mul, Nat.cast_pow, Nat.cast_ofNat]; ring
  rw [this, Int.natAbs_neg, Int.natAbs_ofNat]


theorem zero_isNearest : Float64.IsNearest (Float64.nearest false 0 100).1 0 100 ∧
    (Float64.nearest false 0 100).1.bits < 2 ^ 63 := by
  have hx : (Float64.nearest false 0 100).1 = ⟨0⟩ := by decide
  rw [hx]
  have hv0 : (⟨0⟩ : Float64).value = 0 := by decide
  refine ⟨⟨⟨by norm_num, by norm_num⟩, ?_⟩, by norm_num⟩
  intro y fy hne
  have hd0 : (⟨0⟩ : Float64).distance 0 100 = 0 := by
    unfold Float64.distance
    rw [hv0]
    simp only [Nat.cast_zero, zero_mul, mul_zero, sub_zero, Int.natAbs_zero]
  rw [hd0]
  rw [hv0] at hne
  unfold Float64.distance
  simp only [Nat.cast_zero, zero_mul, sub_zero]
  have : ((100 : Nat) : Int) * y.value ≠ 0 := by
    intro h
    rcases Int.mul_eq_zero.1 h with h | h
    · norm_num at h
    · exact hne h
  exact Int.natAbs_pos.2 this

theorem abs_lt_of_negative (c X N Y : Nat) (hc : 0 < c) (hN : c ≤ N)
    (r1 : 2 * X ≤ 2 * N + c) (r2 : 2 * N ≤ 2 * X + c) :
    (((X : Nat) : Int) - (N : Int)).natAbs < Y + N := by
  omega

theorem abs_lt_of_below (X C N Y : Nat) (hY : Y < C) (hC : C ≤ N)
    (h : (((X : Nat) : Int) - (N : Int)).natAbs ≤ (((C : Nat) : Int) - (N : Int)).natAbs) :
    (((X : Nat) : Int) - (N : Int)).natAbs < (((Y : Nat) : Int) - (N : Int)).natAbs := by
  omega

theorem positive_isNearest (k : Nat) (hpos : 0 < k) (hk : k ≤ 10000) :
    (Float64.nearest false k 100).1.bits < 2 ^ 63 ∧
    Float64.IsNearest (Float64.nearest false k 100).1 k 100 := by
  have hE2 : floorLog2 k 100 ≤ 13 := floorLog2_le k 100 13 (by omega)
  have hE1 : -((6 : Nat) + 1 : Int) ≤ floorLog2 k 100 := floorLog2_ge k 100 6 (by norm_num)
  obtain ⟨m, s, hs, m1, m2, k1, r1, r2, hb, hf, hmag⟩ :=
    nearest_normal k 100 hpos (by norm_num) (by omega) (by omega)
  have hs2 : s ≤ 1072 := by omega
  obtain ⟨t1, t2⟩ := hundredths_no_tie k m s hs2
  have hS : 0 < 2 ^ s := Nat.pow_pos (by norm_num)
  have hc : 0 < 100 * 2 ^ s := Nat.mul_pos (by norm_num) hS
  refine ⟨hb, hf, ?_⟩
  intro y fy hne
  have hx0 : (Float64.nearest false k 100).1.bits / 2 ^ 63 % 2 ≠ 1 := by omega
  rw [distance_of_magnitude _ k 100 (m * 2 ^ s) hx0 hmag]
  rw [value_of_nonneg _ hb, hmag] at hne
  have e0 : 100 * (m * 2 ^ s) = 100 * 2 ^ s * m := by ring
  rw [e0]
  have hcc : 100 * 2 ^ s * 1 ≤ 100 * 2 ^ s * 2 ^ 52 := Nat.mul_le_mul_left _ (by norm_num)
  clear hE1 hE2 hs hs2 hb hf hmag hx0 e0 hk hpos
  generalize hN : k * 2 ^ 1074 = N at k1 r1 r2 t1 t2 ⊢
  generalize hcd : 100 * 2 ^ s = c at k1 r1 r2 t1 t2 hc hcc ⊢
  have hcN : c ≤ N := by omega
  by_cases hy : y.bits / 2 ^ 63 % 2 = 1
  · rw [distance_of_negative y k 100 hy, hN]
    exact abs_lt_of_negative c (c * m) N (100 * y.magnitude) hc hcN r1 r2
  · rw [distance_of_magnitude y k 100 y.magnitude hy rfl, hN]
    have hvy : y.value = (y.magnitude : Int) := by
      unfold Float64.value; rw [if_neg hy]
    rw [hvy] at hne
    have hne2 : y.magnitude ≠ m * 2 ^ s := fun h => hne (by rw [h])
    clear hN hne hvy
    rcases Nat.lt_or_ge y.magnitude (2 ^ (52 + s)) with hlow | hhigh
    · have hm52 : (((c * m : Nat) : Int) - (N : Int)).natAbs ≤
          (((c * 2 ^ 52 : Nat) : Int) - (N : Int)).natAbs := by
        by_cases hm : m = 2 ^ 52
        · rw [hm]
        · exact le_of_lt (nearest_multiple c N m (2 ^ 52) hc
            (fun h => hm h.symm) (by omega) (by omega))
      have hlow2 : 100 * y.magnitude < c * 2 ^ 52 := by
        have h1 : 100 * y.magnitude < 100 * 2 ^ (52 + s) :=
          Nat.mul_lt_mul_of_pos_left hlow (by norm_num)
        have e : 100 * 2 ^ (52 + s) = c * 2 ^ 52 := by rw [← hcd, pow_add]; ring
        rw [e] at h1
        exact h1
      exact abs_lt_of_below (c * m) (c * 2 ^ 52) N (100 * y.magnitude) hlow2 k1 hm52
    · obtain ⟨t, ht⟩ := magnitude_multiple y s hhigh
      have htm : t ≠ m := fun h => hne2 (by rw [ht, h])
      have e1 : 100 * y.magnitude = c * t := by rw [ht, ← hcd]; ring
      rw [e1]
      exact nearest_multiple c N m t hc htm (by omega) (by omega)

/-! ## The round trip of a report line (C2) -/

/-- The parser's conversion of `k/100`, for `k/100` at most 100.00, is the
two-decimal percentage `k/100`: the nearest `float64`, sign bit clear. -/
theorem nearest_isHundredths (k : Nat) (hk : k ≤ 10000) :
    Float64.IsHundredths (Float64.nearest false k 100).1 k := by
  rcases Nat.eq_zero_or_pos k with h0 | hpos
  · subst h0
    exact ⟨hk, zero_isNearest.2, zero_isNearest.1⟩
  · exact ⟨hk, (positive_isNearest k hpos hk).1, (positive_isNearest k hpos hk).2⟩

/-- A two-decimal percentage has one `float64`: the one the parser returns. -/
theorem IsHundredths_eq_nearest (x : Float64) (k : Nat) (h : Float64.IsHundredths x k) :
    x = (Float64.nearest false k 100).1 :=
  IsNearest_unique x (Float64.nearest false k 100).1 k 100 h.2.1
    (nearest_isHundredths k h.1).2.1 h.2.2 (nearest_isHundredths k h.1).2.2

theorem decimalNat_eq_fmtDigits (n : Nat) (h : n < 10 ^ 21) : decimalNat n = fmtDigits 20 n [] := by
  rw [fmtDigits_eq 20 n [] h]
  simp

theorem reportLine_example :
    reportLine ScopeSome 0 125 50 482931 =
      str "some avg10=0.00 avg60=1.25 avg300=0.50 total=482931" := by
  unfold reportLine hundredths
  rw [decimalNat_eq_fmtDigits (0 / 100) (by norm_num),
    decimalNat_eq_fmtDigits (125 / 100) (by norm_num),
    decimalNat_eq_fmtDigits 482931 (by norm_num)]
  decide

theorem reportLine_inexact :
    reportLine ScopeFull 7 9999 10000 0 =
      str "full avg10=0.07 avg60=99.99 avg300=100.00 total=0" := by
  unfold reportLine hundredths
  rw [decimalNat_eq_fmtDigits (7 / 100) (by norm_num),
    decimalNat_eq_fmtDigits (9999 / 100) (by norm_num),
    decimalNat_eq_fmtDigits (10000 / 100) (by norm_num)]
  decide

/-- Claim C2: for every Result whose scope is `some` or `full`, whose total is
non-negative and fits `int`, and whose averages are two-decimal percentages
`avg10/100`, `avg60/100`, `avg300/100` (each the `float64` nearest to that
fraction, at most 100.00), parsing the report line that carries those numerals
and that total returns exactly that Result, with no error. -/
theorem parse_round_trip (r : Result) (avg10 avg60 avg300 : Nat)
    (hscope : r.Scope = ScopeSome ∨ r.Scope = ScopeFull)
    (htotal : 0 ≤ r.Total ∧ r.Total < 2 ^ 63)
    (h10 : Float64.IsHundredths r.Avg10 avg10)
    (h60 : Float64.IsHundredths r.Avg60 avg60)
    (h300 : Float64.IsHundredths r.Avg300 avg300) :
    parsePressureEntry (reportLine r.Scope avg10 avg60 avg300 r.Total.toNat) = Go.ret (r, none) := by
  obtain ⟨scope, total, a10, a60, a300⟩ := r
  have e10 := IsHundredths_eq_nearest _ _ h10
  have e60 := IsHundredths_eq_nearest _ _ h60
  have e300 := IsHundredths_eq_nearest _ _ h300
  have b10 := h10.1
  have b60 := h60.1
  have b300 := h300.1
  clear h10 h60 h300
  simp only at hscope htotal e10 e60 e300 ⊢
  subst e10 e60 e300
  have ht : total.toNat < 2 ^ 63 := by omega
  have htot : ((total.toNat : Nat) : Int) = total := Int.toNat_of_nonneg htotal.1
  have hs := hscope
  generalize total.toNat = tot at ht htot ⊢
  have k1 : (61 : Nat) ∉ str "avg10" := by decide
  have k2 : (61 : Nat) ∉ str "avg60" := by decide
  have k3 : (61 : Nat) ∉ str "avg300" := by decide
  have k4 : (61 : Nat) ∉ str "total" := by decide
  have s0 : (32 : Nat) ∉ scope := by rcases hs with h | h <;> subst h <;> decide
  have key_no_space : ∀ (key value : GoString), 32 ∉ key → 32 ∉ value →
      32 ∉ key ++ 61 :: value := by
    intro key value hk hv hm
    simp only [List.mem_append, List.mem_cons] at hm
    rcases hm with h | h | h
    · exact hk h
    · omega
    · exact hv h
  have hsplit := Split_five scope (str "avg10" ++ 61 :: hundredths avg10)
    (str "avg60" ++ 61 :: hundredths avg60) (str "avg300" ++ 61 :: hundredths avg300)
    (str "total" ++ 61 :: decimalNat tot) s0
    (key_no_space _ _ (by decide) (hundredths_no_sep _ 32 (Or.inl rfl)))
    (key_no_space _ _ (by decide) (hundredths_no_sep _ 32 (Or.inl rfl)))
    (key_no_space _ _ (by decide) (hundredths_no_sep _ 32 (Or.inl rfl)))
    (key_no_space _ _ (by decide) (decimalNat_no_sep _ 32 (Or.inl rfl)))
  rw [reportLine_fields, parsePressureEntry_fields _ _ _ _ _ _ [] hsplit,
    index_of_get? _ _ _ (Split_key_value _ _ k1 (hundredths_no_sep _ 61 (Or.inr rfl))),
    index_of_get? _ _ _ (Split_key_value _ _ k2 (hundredths_no_sep _ 61 (Or.inr rfl))),
    index_of_get? _ _ _ (Split_key_value _ _ k3 (hundredths_no_sep _ 61 (Or.inr rfl))),
    index_of_get? _ _ _ (Split_key_value _ _ k4 (decimalNat_no_sep _ 61 (Or.inr rfl)))]
  simp only [Go.bind, ParseFloat_hundredths _ b10, ParseFloat_hundredths _ b60,
    ParseFloat_hundredths _ b300, Atoi_decimalNat tot ht]
  have hscope : (if scope = str "some" then ScopeSome else ScopeFull) = scope := by
    rcases hs with h | h <;> subst h <;> decide
  rw [hscope, htot]

/-- Witness of C2: "some avg10=0.00 avg60=1.25 avg300=0.50 total=482931" is the
report line of scope `some`, averages 0.00, 1.25, 0.50 and total 482931, and it
parses to the Result whose averages are the bit patterns of the `float64` 0,
1.25 and 0.5; and the line "full avg10=0.07 avg60=99.99 avg300=100.00 total=0",
whose first two averages are no `float64`, parses to the Result that holds the
nearest ones, `0x3FB1EB851EB851EC` and `0x4058FF5C28F5C28F`. -/
theorem parse_round_trip_witness :
    (reportLine ScopeSome 0 125 50 482931 =
        str "some avg10=0.00 avg60=1.25 avg300=0.50 total=482931" ∧
      Float64.IsHundredths ⟨0⟩ 0 ∧ Float64.IsHundredths ⟨0x3FF4000000000000⟩ 125 ∧
      Float64.IsHundredths ⟨0x3FE0000000000000⟩ 50 ∧
      parsePressureEntry (str "some avg10=0.00 avg60=1.25 avg300=0.50 total=482931") =
        Go.ret (⟨ScopeSome, 482931, ⟨0⟩, ⟨0x3FF4000000000000⟩, ⟨0x3FE0000000000000⟩⟩, none)) ∧
    (reportLine ScopeFull 7 9999 10000 0 =
        str "full avg10=0.07 avg60=99.99 avg300=100.00 total=0" ∧
      Float64.IsHundredths ⟨0x3FB1EB851EB851EC⟩ 7 ∧
      Float64.IsHundredths ⟨0x4058FF5C28F5C28F⟩ 9999 ∧
      Float64.IsHundredths ⟨0x4059000000000000⟩ 10000 ∧
      parsePressureEntry (str "full avg10=0.07 avg60=99.99 avg300=100.00 total=0") =
        Go.ret (⟨ScopeFull, 0, ⟨0x3FB1EB851EB851EC⟩, ⟨0x4058FF5C28F5C28F⟩,
          ⟨0x4059000000000000⟩⟩, none)) := by
  have a0 : Float64.IsHundredths ⟨0⟩ 0 :=
    (by decide : (Float64.nearest false 0 100).1 = ⟨0⟩) ▸ nearest_isHundredths 0 (by decide)
  have a125 : Float64.IsHundredths ⟨0x3FF4000000000000⟩ 125 :=
    (by decide : (Float64.nearest false 125 100).1 = ⟨0x3FF4000000000000⟩) ▸
      nearest_isHundredths 125 (by decide)
  have a50 : Float64.IsHundredths ⟨0x3FE0000000000000⟩ 50 :=
    (by decide : (Float64.nearest false 50 100).1 = ⟨0x3FE0000000000000⟩) ▸
      nearest_isHundredths 50 (by decide)
  have a7 : Float64.IsHundredths ⟨0x3FB1EB851EB851EC⟩ 7 :=
    (by decide : (Float64.nearest false 7 100).1 = ⟨0x3FB1EB851EB851EC⟩) ▸
      nearest_isHundredths 7 (by decide)
  have a9999 : Float64.IsHundredths ⟨0x4058FF5C28F5C28F⟩ 9999 :=
    (by decide : (Float64.nearest false 9999 100).1 = ⟨0x4058FF5C28F5C28F⟩) ▸
      nearest_isHundredths 9999 (by decide)
  have a10000 : Float64.IsHundredths ⟨0x4059000000000000⟩ 10000 :=
    (by decide : (Float64.nearest false 10000 100).1 = ⟨0x4059000000000000⟩) ▸
      nearest_isHundredths 10000 (by decide)
  refine ⟨⟨reportLine_example, a0, a125, a50, ?_⟩, ⟨reportLine_inexact, a7, a9999, a10000, ?_⟩⟩
  · rw [← reportLine_example]
    exact parse_round_trip ⟨ScopeSome, 482931, ⟨0⟩, ⟨0x3FF4000000000000⟩, ⟨0x3FE0000000000000⟩⟩
      0 125 50 (Or.inl rfl) (by decide) a0 a125 a50
  · rw [← reportLine_inexact]
    exact parse_round_trip ⟨ScopeFull, 0, ⟨0x3FB1EB851EB851EC⟩, ⟨0x4058FF5C28F5C28F⟩,
      ⟨0x4059000000000000⟩⟩ 7 9999 10000 (Or.inr rfl) (by decide) a7 a9999 a10000

end Psi
